import Mathlib

/-!
# XrtSession node cache

A shallow embedding of `third_party/xla_client/xrt_session.h`: the `CachedNode`
record, the position-replayed `NodeCache`, and the per-key cache table of
`XrtSession`, followed by the properties established about them.

Conventions of the embedding.
* The tensorflow handle types (`tensorflow::Output`, `tensorflow::Operation`,
  `tensorflow::ops::Placeholder`) are external; they are type parameters
  `O`, `Op`, `P`.
* `std::vector<std::shared_ptr<CachedNode>>` is a `List` of `CachedNode`
  values: the entries are the (non-null) pointees, `push_back` is `++ [x]`.
* `size_t position_` is a `Nat`.  The only arithmetic on it is `++position_`
  executed after the check `position_ < nodes_.size()`, so it cannot wrap.
* A failed `XLA_CHECK_*` is the `Except.error` branch; it fires before any
  member is written, so the state of the object is the one before the call.
* `std::map<string, NodeCache>` is an association list with unique keys; a
  `NodeCache*` into the map is represented by its key (references into a
  `std::map` stay valid across insertions of other keys).
-/

namespace xla

/-! ## Data model -/

/-- The record `XrtSession::CachedNode`: two optional end-point nodes and the
place-holders feeding them. -/
structure CachedNode (O Op P : Type) where
  output : Option O
  operation : Option Op
  holders : List P
  deriving DecidableEq, Repr

namespace CachedNode

variable {O Op P : Type}

/-- The constructor `CachedNode(tensorflow::Output output, std::vector<Placeholder> holders)`:
initialises `output` and `holders`; `operation` is default-initialised (absent). -/
def ofOutput (output : O) (holders : List P) : CachedNode O Op P :=
  { output := some output, operation := none, holders := holders }

/-- The constructor `CachedNode(tensorflow::Operation operation, std::vector<Placeholder> holders)`:
initialises `operation` and `holders`; `output` is default-initialised (absent). -/
def ofOperation (operation : Op) (holders : List P) : CachedNode O Op P :=
  { output := none, operation := some operation, holders := holders }

/-- The values obtainable from the two user-declared constructors of the struct. -/
inductive Constructed : CachedNode O Op P → Prop
  | byOutput (output : O) (holders : List P) : Constructed (ofOutput output holders)
  | byOperation (operation : Op) (holders : List P) : Constructed (ofOperation operation holders)

end CachedNode

/-- The failure raised by a violated `XLA_CHECK_LT(a, b)`. -/
inductive CheckFailure where
  | check_lt (a b : Nat)
  deriving DecidableEq, Repr

/-- The class `XrtSession::NodeCache`: `nodes_` and `position_`. -/
structure NodeCache (O Op P : Type) where
  nodes_ : List (CachedNode O Op P) := []
  position_ : Nat := 0
  deriving DecidableEq, Repr

namespace NodeCache

variable {O Op P : Type}

/-- A default-constructed `NodeCache`: no nodes, `position_ = 0`. -/
def empty : NodeCache O Op P := {}

/-- The member `bool Empty() const { return position_ >= nodes_.size(); }`. -/
def Empty (c : NodeCache O Op P) : Bool :=
  decide (c.position_ ≥ c.nodes_.length)

/-- The member `Get()`: `XLA_CHECK_LT(position_, nodes_.size()); ++position_;
return *nodes_[position_ - 1];`.  Returns the node and the cache after the call. -/
def Get (c : NodeCache O Op P) : Except CheckFailure (CachedNode O Op P × NodeCache O Op P) :=
  if h : c.position_ < c.nodes_.length then
    let position := c.position_ + 1
    have hp : position - 1 < c.nodes_.length := by
      simpa [position] using h
    .ok (c.nodes_.get ⟨position - 1, hp⟩, { c with position_ := position })
  else
    .error (.check_lt c.position_ c.nodes_.length)

/-- The member `void Add(std::shared_ptr<CachedNode> node) { nodes_.push_back(std::move(node)); }`. -/
def Add (c : NodeCache O Op P) (node : CachedNode O Op P) : NodeCache O Op P :=
  { c with nodes_ := c.nodes_ ++ [node] }

/-- The member `void Rewind() { position_ = 0; }`. -/
def Rewind (c : NodeCache O Op P) : NodeCache O Op P :=
  { c with position_ := 0 }

/-! ### Call sequences on one cache -/

/-- One call on a `NodeCache`. -/
inductive Call (O Op P : Type) where
  | add (node : CachedNode O Op P)
  | get
  | rewind
  deriving DecidableEq, Repr

/-- The cache after one call; a `Get` whose check fails leaves the cache as it was. -/
def afterCall (c : NodeCache O Op P) : Call O Op P → NodeCache O Op P
  | .add node => c.Add node
  | .get =>
    match c.Get with
    | .ok (_, c1) => c1
    | .error _ => c
  | .rewind => c.Rewind

/-- The cache after a finite sequence of calls, performed left to right. -/
def afterCalls (c : NodeCache O Op P) (calls : List (Call O Op P)) : NodeCache O Op P :=
  calls.foldl afterCall c

/-- The caches reachable from the default-constructed one. -/
def Reachable (c : NodeCache O Op P) : Prop :=
  ∃ calls : List (Call O Op P), afterCalls empty calls = c

/-- Adds the given nodes with `Add`, in order. -/
def addAll (c : NodeCache O Op P) (nodes : List (CachedNode O Op P)) : NodeCache O Op P :=
  nodes.foldl Add c

/-- Calls `Get` `n` times in a row, collecting the returned nodes; fails at the first
failing `Get`. -/
def getN : Nat → NodeCache O Op P →
    Except CheckFailure (List (CachedNode O Op P) × NodeCache O Op P)
  | 0, c => .ok ([], c)
  | n + 1, c =>
    match c.Get with
    | .error e => .error e
    | .ok (node, c1) =>
      match getN n c1 with
      | .error e => .error e
      | .ok (rest, c2) => .ok (node :: rest, c2)

/-- One replay pass: `Rewind` followed by `n` calls to `Get`. -/
def replayPass (n : Nat) (c : NodeCache O Op P) :
    Except CheckFailure (List (CachedNode O Op P) × NodeCache O Op P) :=
  getN n c.Rewind

/-- The given number of replay passes in a row, collecting what each pass returned. -/
def replayPasses (n : Nat) : Nat → NodeCache O Op P →
    Except CheckFailure (List (List (CachedNode O Op P)) × NodeCache O Op P)
  | 0, c => .ok ([], c)
  | k + 1, c =>
    match replayPass n c with
    | .error e => .error e
    | .ok (got, c1) =>
      match replayPasses n k c1 with
      | .error e => .error e
      | .ok (rest, c2) => .ok (got :: rest, c2)

end NodeCache

/-! ## The session and its table of caches -/

/-- Lookup in a `std::map<string, V>` kept as an association list. -/
def mapFind {V : Type} : List (String × V) → String → Option V
  | [], _ => none
  | (k, v) :: rest, key => if k = key then some v else mapFind rest key

/-- Writes the mapped value of `key`: overwrites the slot when the key is there and
creates the slot otherwise. -/
def mapStore {V : Type} : List (String × V) → String → V → List (String × V)
  | [], key, v => [(key, v)]
  | (k, w) :: rest, key, v =>
    if k = key then (k, v) :: rest else (k, w) :: mapStore rest key v

/-- The class `XrtSession`, restricted to the members the cache logic reads or writes:
`target_` and `node_cache_`.  (`root_` and `session_` are tensorflow objects that no
member defined in the header inspects.) -/
structure XrtSession (O Op P : Type) where
  target_ : String
  node_cache_ : List (String × NodeCache O Op P) := []

/-- A `NodeCache*` handed out by `GetNodeCache`: the slot of `node_cache_` it points to. -/
structure NodeCachePtr where
  key : String
  deriving DecidableEq, Repr

namespace XrtSession

variable {O Op P : Type}

/-- The member `NodeCache* GetNodeCache(const string& key) { return &node_cache_[key]; }`.
`operator[]` value-initialises the slot when the key is not in the map; the result is
the session after the call and the pointer to the slot. -/
def GetNodeCache (s : XrtSession O Op P) (key : String) : XrtSession O Op P × NodeCachePtr :=
  match mapFind s.node_cache_ key with
  | some _ => (s, ⟨key⟩)
  | none => ({ s with node_cache_ := mapStore s.node_cache_ key NodeCache.empty }, ⟨key⟩)

/-- The cache a pointer designates (`*p`), when its slot exists. -/
def deref (s : XrtSession O Op P) (p : NodeCachePtr) : Option (NodeCache O Op P) :=
  mapFind s.node_cache_ p.key

/-- A member call made through a pointer (`p->Add(node)`, `p->Get()`, `p->Rewind()`):
the pointed-to slot takes the state the call leaves.  A pointer whose slot does not
exist designates nothing and the session is returned as it is. -/
def callVia (s : XrtSession O Op P) (p : NodeCachePtr) (call : NodeCache.Call O Op P) :
    XrtSession O Op P :=
  match s.deref p with
  | some c => { s with node_cache_ := mapStore s.node_cache_ p.key (c.afterCall call) }
  | none => s

/-- Modelled from the spec: the body of `XrtSession::Reset()`, which the header only
declares.  The spec says that it "discards all Fragment Caches" (it "clears `caches`");
the reconstruction of the scope and of the execution handle concerns members that are
not part of this record. -/
def Reset (s : XrtSession O Op P) : XrtSession O Op P :=
  { s with node_cache_ := [] }

/-- One action of the owner of a session. -/
inductive Action (O Op P : Type) where
  | getNodeCache (key : String)
  | via (p : NodeCachePtr) (call : NodeCache.Call O Op P)

/-- The session after one action. -/
def afterAction (s : XrtSession O Op P) : Action O Op P → XrtSession O Op P
  | .getNodeCache key => (s.GetNodeCache key).1
  | .via p call => s.callVia p call

/-- The session after a finite sequence of actions, performed left to right. -/
def afterActions (s : XrtSession O Op P) (acts : List (Action O Op P)) : XrtSession O Op P :=
  acts.foldl afterAction s

/-- The member calls that a sequence of actions makes through the pointer `p`, in order. -/
def callsVia (p : NodeCachePtr) : List (Action O Op P) → List (NodeCache.Call O Op P)
  | [] => []
  | .getNodeCache _ :: rest => callsVia p rest
  | .via q call :: rest => if q = p then call :: callsVia p rest else callsVia p rest

/-- The keys a sequence of actions touches, in order. -/
def Action.key : Action O Op P → String
  | .getNodeCache key => key
  | .via p _ => p.key

end XrtSession

/-! ## Cache keys -/

namespace XrtSession

/-- Modelled from the spec: the body of the static member
`XrtSession::GetCacheKey(const string& op_name, const string& device)`, which the header
only declares.  The spec describes it as a "string-concatenation-style composition of
the two inputs with a separator guaranteed not to appear in either component".  The
spec does not name the separator, so it is the parameter `sep`: the key is the operator
name, the separator, the device. -/
def GetCacheKey (sep : Char) (op_name device : String) : String :=
  op_name ++ String.singleton sep ++ device

/-- Modelled from the spec: the supported key space of `GetCacheKey`, which the header
does not describe.  The spec's guarantee is that the separator does "not appear in
either component": neither in the operator name nor in the device. -/
@[reducible]
def supportedKey (sep : Char) (op_name device : String) : Prop :=
  sep ∉ op_name.data ∧ sep ∉ device.data

end XrtSession

/-! ## The build-or-replay pattern of the callers of a cache -/

namespace NodeCache

variable {O Op P : Type}

/-- One step of a caller on its cache:
`if (cache->Empty()) { cache->Add(fresh); } return cache->Get();`
where `fresh` is the fragment the caller builds when the cache is exhausted. -/
def buildOrReplayStep (c : NodeCache O Op P) (fresh : CachedNode O Op P) :
    Except CheckFailure (CachedNode O Op P × NodeCache O Op P) :=
  (if c.Empty then c.Add fresh else c).Get

/-- A pass: one step for each element of `fresh`, in order; the element is what that
step builds if it finds the cache exhausted.  Collects what the steps return. -/
def buildOrReplayPass : List (CachedNode O Op P) → NodeCache O Op P →
    Except CheckFailure (List (CachedNode O Op P) × NodeCache O Op P)
  | [], c => .ok ([], c)
  | f :: rest, c =>
    match c.buildOrReplayStep f with
    | .error e => .error e
    | .ok (node, c1) =>
      match buildOrReplayPass rest c1 with
      | .error e => .error e
      | .ok (got, c2) => .ok (node :: got, c2)

/-- The passes that follow the first one: each is `Rewind` followed by a pass; the
elements of `freshs` are the fragments that the steps of each pass would build. -/
def laterPasses : List (List (CachedNode O Op P)) → NodeCache O Op P →
    Except CheckFailure (List (List (CachedNode O Op P)) × NodeCache O Op P)
  | [], c => .ok ([], c)
  | fresh :: freshs, c =>
    match buildOrReplayPass fresh c.Rewind with
    | .error e => .error e
    | .ok (got, c1) =>
      match laterPasses freshs c1 with
      | .error e => .error e
      | .ok (gots, c2) => .ok (got :: gots, c2)

end NodeCache

end xla

/-! ## Pooling lowerings (`torch_xla/csrc/pooling.cpp`)

Conventions of the embedding.
* `xla::int64` values are `Int`; `ArraySlice<const xla::int64>` and `std::vector` are
  `List`.  The arithmetic of the embedded functions is `+ 1`, `+ 2`, `- 2` on ranks and
  sizes, which stay inside `int64` for tensor shapes, and `%`, `/` on dimension sizes.
* `%` and `/` truncate towards zero (`Int.tmod`, `Int.tdiv`).  With a zero divisor they
  are undefined, which is the failure `division_by_zero`; with the dividend `INT64_MIN`
  and the divisor `-1` the quotient is not an `int64` and both are undefined, which is
  the failure `arithmetic_overflow`.
* `xs[i]` outside `0 ≤ i < xs.size()` is undefined, the failure `index_out_of_range`.
* `XLA_CHECK_EQ(padding_attr.size(), spatial_dim_count)` compares a size with an
  `int64`; a size is below `2^63`, so the comparison holds exactly when the two numbers
  are equal as integers, also for a negative `spatial_dim_count`.
* `xla::XlaOp` and the functions on it that the file calls and does not define are
  parameters (`XlaOps`).
-/

namespace torch_xla

/-- The ways a call of the embedded functions can fail to return a value: a violated
`XLA_CHECK*`, an index outside its array, a division or remainder by zero, a division
or remainder whose quotient overflows `int64`. -/
inductive PoolingError where
  | check_failed
  | index_out_of_range
  | division_by_zero
  | arithmetic_overflow
  deriving DecidableEq, Repr

/-- The least `int64` value, `-2^63`. -/
def INT64_MIN : Int := -9223372036854775808

/-- The struct `PoolingOpAttributes`. -/
structure PoolingOpAttributes where
  kernel_size : List Int
  stride : List Int
  padding : List (Int × Int)
  deriving DecidableEq, Repr

/-- The function `MakePoolingOpAttributes`.  `std::vector<int64> kernel_size(2, 1)` is
`List.replicate 2 1`, `insert(end, ...)` is `++`, `stride.resize(2, 1)` on the empty
vector is `List.replicate 2 1`, and the loop over `padding_attr` pushes one pair per
element. -/
def MakePoolingOpAttributes (kernel_size_attr stride_attr padding_attr : List Int)
    (spatial_dim_count : Int) : Except PoolingError PoolingOpAttributes :=
  let kernel_size : List Int := List.replicate 2 1 ++ kernel_size_attr
  let stride : List Int :=
    if stride_attr.isEmpty then kernel_size else List.replicate 2 1 ++ stride_attr
  if (padding_attr.length : Int) = spatial_dim_count then
    let padding : List (Int × Int) :=
      padding_attr.foldl (fun padding dim_pad => padding ++ [(dim_pad, dim_pad)]) []
    .ok { kernel_size := kernel_size, stride := stride, padding := padding }
  else
    .error .check_failed

/-- The element `xs[i]` of an `ArraySlice`. -/
def elemAt (xs : List Int) (i : Int) : Except PoolingError Int :=
  if 0 ≤ i then
    match xs[i.toNat]? with
    | some v => .ok v
    | none => .error .index_out_of_range
  else
    .error .index_out_of_range

/-- The remainder `a % b` of `int64` values: undefined for `b = 0` and for
`INT64_MIN % -1` (the quotient `2^63` is not an `int64`), truncating otherwise. -/
def int64_rem (a b : Int) : Except PoolingError Int :=
  if b = 0 then .error .division_by_zero
  else if a = INT64_MIN ∧ b = -1 then .error .arithmetic_overflow
  else .ok (a.tmod b)

/-- The quotient `a / b` of `int64` values: undefined for `b = 0` and for
`INT64_MIN / -1` (the quotient `2^63` is not an `int64`), truncating otherwise. -/
def int64_div (a b : Int) : Except PoolingError Int :=
  if b = 0 then .error .division_by_zero
  else if a = INT64_MIN ∧ b = -1 then .error .arithmetic_overflow
  else .ok (a.tdiv b)

/-- The loop of `AdaptiveAvgPoolKernelSize`, with `todo` iterations left and the loop
variable at `spatial_dim`: the check `XLA_CHECK_EQ(input_size[spatial_dim_off +
spatial_dim] % output_size[spatial_dim], 0)`, then `kernel_size.push_back(input_size[
spatial_dim_off + spatial_dim] / output_size[spatial_dim])`. -/
def AdaptiveAvgPoolKernelSize_loop (input_size output_size : List Int)
    (spatial_dim_off : Int) : Nat → Int → List Int → Except PoolingError (List Int)
  | 0, _, kernel_size => .ok kernel_size
  | todo + 1, spatial_dim, kernel_size =>
    match elemAt input_size (spatial_dim_off + spatial_dim) with
    | .error e => .error e
    | .ok i =>
      match elemAt output_size spatial_dim with
      | .error e => .error e
      | .ok o =>
        match int64_rem i o with
        | .error e => .error e
        | .ok r =>
          if r = 0 then
            match int64_div i o with
            | .error e => .error e
            | .ok q =>
              AdaptiveAvgPoolKernelSize_loop input_size output_size spatial_dim_off todo
                (spatial_dim + 1) (kernel_size ++ [q])
          else
            .error .check_failed

/-- The function `AdaptiveAvgPoolKernelSize`: `kernel_size(2, 1)`,
`spatial_dim_off = input_size.size() - 2`, and the loop for `spatial_dim` in 0, 1. -/
def AdaptiveAvgPoolKernelSize (input_size output_size : List Int) :
    Except PoolingError (List Int) :=
  AdaptiveAvgPoolKernelSize_loop input_size output_size ((input_size.length : Int) - 2)
    2 0 (List.replicate 2 1)

/-- The loop of `IsSupportedAdaptiveAvgPool2d`, with `todo` iterations left:
`if (input_size[rank - 2 + spatial_dim] % output_size[spatial_dim] != 0) return false;`
and `return true` after the loop. -/
def IsSupportedAdaptiveAvgPool2d_loop (input_size output_size : List Int) (rank : Int) :
    Nat → Int → Except PoolingError Bool
  | 0, _ => .ok true
  | todo + 1, spatial_dim =>
    match elemAt input_size (rank - 2 + spatial_dim) with
    | .error e => .error e
    | .ok i =>
      match elemAt output_size spatial_dim with
      | .error e => .error e
      | .ok o =>
        match int64_rem i o with
        | .error e => .error e
        | .ok r =>
          if r ≠ 0 then .ok false
          else IsSupportedAdaptiveAvgPool2d_loop input_size output_size rank todo
            (spatial_dim + 1)

/-- The function `IsSupportedAdaptiveAvgPool2d`: `rank = input_size.size()` and the loop
for `spatial_dim` in 0, 1. -/
def IsSupportedAdaptiveAvgPool2d (input_size output_size : List Int) :
    Except PoolingError Bool :=
  IsSupportedAdaptiveAvgPool2d_loop input_size output_size (input_size.length : Int) 2 0

/-- The wording of the support condition: each of the last two input dimensions is
divisible by the corresponding output dimension (entries that do not exist count as 0). -/
@[reducible]
def spatialDimsDivisible (input_size output_size : List Int) : Prop :=
  output_size.getD 0 0 ∣ input_size.getD (input_size.length - 2) 0 ∧
  output_size.getD 1 0 ∣ input_size.getD (input_size.length - 1) 0

/-- The functions on `xla::XlaOp` that the file calls and does not define: the rank of
the shape of an op (`XlaHelpers::ShapeOfXlaOp(op).rank()`), `BuildUnsqueeze`,
`SqueezeTrivialDimension`, and `xla::SelectAndScatterWithGeneralPadding` applied to the
operand, the window dimensions, the window strides, the padding and the source (its
select, scatter and init-value arguments depend on the element type only). -/
structure XlaOps (X : Type) where
  rank : X → Int
  BuildUnsqueeze : X → Int → X
  SqueezeTrivialDimension : X → Int → X
  SelectAndScatterWithGeneralPadding :
    X → List Int → List Int → List (Int × Int) → X → X

/-- The struct `BatchInput`. -/
structure BatchInput (X : Type) where
  batch_input : X
  original_rank : Int

/-- The function `CreateBatchInput`. -/
def CreateBatchInput {X : Type} (ops : XlaOps X) (input : X) (spatial_dim_count : Int) :
    Except PoolingError (BatchInput X) :=
  let rank : Int := ops.rank input
  if rank = spatial_dim_count + 1 ∨ rank = spatial_dim_count + 2 then
    if rank = spatial_dim_count + 1 then
      .ok { batch_input := ops.BuildUnsqueeze input 0, original_rank := rank }
    else
      .ok { batch_input := input, original_rank := rank }
  else
    .error .check_failed

/-- The function `RemoveTrivialBatch`. -/
def RemoveTrivialBatch {X : Type} (ops : XlaOps X) (batch : X)
    (original_rank spatial_dim_count : Int) : X :=
  if original_rank = spatial_dim_count + 1 then
    ops.SqueezeTrivialDimension batch 0
  else
    batch

/-- The arguments of the call of `xla::SelectAndScatterWithGeneralPadding` in
`BuildMaxPoolNdBackward`. -/
structure SelectAndScatterArgs (X : Type) where
  operand : X
  window_dimensions : List Int
  window_strides : List Int
  padding : List (Int × Int)
  source : X

/-- The part of `BuildMaxPoolNdBackward` up to its call of
`xla::SelectAndScatterWithGeneralPadding`: the batch input of `input`, the pooling
attributes, `window_padding` (`resize(2)` gives two value-initialised pairs, then the
attribute padding is inserted at the end), the batch input of `out_backprop`.  Returns
the arguments of the call and the recorded `original_rank`. -/
def BuildMaxPoolNdBackward_args {X : Type} (ops : XlaOps X) (out_backprop input : X)
    (spatial_dim_count : Int) (kernel_size stride padding : List Int) :
    Except PoolingError (SelectAndScatterArgs X × Int) :=
  match CreateBatchInput ops input spatial_dim_count with
  | .error e => .error e
  | .ok batch_input_info =>
    match MakePoolingOpAttributes kernel_size stride padding spatial_dim_count with
    | .error e => .error e
    | .ok pooling_op_attributes =>
      let window_padding : List (Int × Int) :=
        List.replicate 2 (0, 0) ++ pooling_op_attributes.padding
      match CreateBatchInput ops out_backprop spatial_dim_count with
      | .error e => .error e
      | .ok batch_out_backprop_info =>
        .ok ({ operand := batch_input_info.batch_input,
               window_dimensions := pooling_op_attributes.kernel_size,
               window_strides := pooling_op_attributes.stride,
               padding := window_padding,
               source := batch_out_backprop_info.batch_input },
             batch_input_info.original_rank)

/-- The function `BuildMaxPoolNdBackward`: the call with the arguments above, then
`RemoveTrivialBatch`. -/
def BuildMaxPoolNdBackward {X : Type} (ops : XlaOps X) (out_backprop input : X)
    (spatial_dim_count : Int) (kernel_size stride padding : List Int) :
    Except PoolingError X :=
  match BuildMaxPoolNdBackward_args ops out_backprop input spatial_dim_count
      kernel_size stride padding with
  | .error e => .error e
  | .ok (args, original_rank) =>
    .ok (RemoveTrivialBatch ops
      (ops.SelectAndScatterWithGeneralPadding args.operand args.window_dimensions
        args.window_strides args.padding args.source)
      original_rank spatial_dim_count)

/-- An interpretation of `XlaOps` on shapes, used to evaluate the functions on concrete
inputs: an op is the list of its dimension sizes, `BuildUnsqueeze` (called at
dimension 0 only) inserts a dimension of size 1 at the front, `SqueezeTrivialDimension`
(called at dimension 0 only) drops a leading dimension of size 1, the select-and-scatter
result has the shape of its operand. -/
def shapeOps : XlaOps (List Int) where
  rank := fun shape => (shape.length : Int)
  BuildUnsqueeze := fun shape _ => 1 :: shape
  SqueezeTrivialDimension := fun shape _ =>
    match shape with
    | 1 :: rest => rest
    | other => other
  SelectAndScatterWithGeneralPadding := fun operand _ _ _ _ => operand

end torch_xla

namespace xla

/-! ## Properties of `NodeCache` -/

namespace NodeCache

variable {O Op P : Type}

theorem Get_of_lt (c : NodeCache O Op P) (h : c.position_ < c.nodes_.length) :
    c.Get = .ok (c.nodes_.get ⟨c.position_, h⟩, { c with position_ := c.position_ + 1 }) := by
  simp [Get, h]

theorem Get_of_not_lt (c : NodeCache O Op P) (h : ¬ c.position_ < c.nodes_.length) :
    c.Get = .error (.check_lt c.position_ c.nodes_.length) := by
  simp [Get, h]

theorem Empty_iff (c : NodeCache O Op P) :
    c.Empty = true ↔ c.nodes_.length ≤ c.position_ := by
  simp [Empty]

theorem addAll_eq (c : NodeCache O Op P) (nodes : List (CachedNode O Op P)) :
    c.addAll nodes = { nodes_ := c.nodes_ ++ nodes, position_ := c.position_ } := by
  induction nodes generalizing c with
  | nil => simp [addAll]
  | cons a t ih =>
    have := ih (c.Add a)
    simp only [addAll, List.foldl_cons] at this ⊢
    rw [this]
    simp [Add]

/-- Reading `rest.length` nodes from the cursor placed after `pre` returns `rest`
and leaves the cursor at the end. -/
theorem getN_suffix (pre rest : List (CachedNode O Op P)) :
    getN rest.length { nodes_ := pre ++ rest, position_ := pre.length } =
      .ok (rest, { nodes_ := pre ++ rest, position_ := (pre ++ rest).length }) := by
  induction rest generalizing pre with
  | nil => simp [getN]
  | cons a t ih =>
    have hlt : pre.length < (pre ++ a :: t).length := by simp
    have hget := Get_of_lt { nodes_ := pre ++ a :: t, position_ := pre.length } hlt
    have ih1 := ih (pre ++ [a])
    simp only [List.append_assoc, List.singleton_append, List.length_append,
      List.length_singleton, List.length_cons, List.length_nil, Nat.zero_add] at ih1
    simp only [getN, List.length_cons, hget, ih1]
    simp [List.getElem_append_right]

theorem replayPass_full (nodes : List (CachedNode O Op P)) (p : Nat) :
    replayPass nodes.length { nodes_ := nodes, position_ := p } =
      .ok (nodes, { nodes_ := nodes, position_ := nodes.length }) := by
  have := getN_suffix [] nodes
  simpa [replayPass, Rewind] using this

theorem replayPasses_full (nodes : List (CachedNode O Op P)) (k p : Nat) :
    replayPasses nodes.length (k + 1) { nodes_ := nodes, position_ := p } =
      .ok (List.replicate (k + 1) nodes, { nodes_ := nodes, position_ := nodes.length }) := by
  induction k generalizing p with
  | zero => simp [replayPasses, replayPass_full]
  | succ k ih =>
    rw [replayPasses, replayPass_full]
    simp only [ih]
    rfl

theorem afterCall_inv (c : NodeCache O Op P) (call : Call O Op P)
    (h : c.position_ ≤ c.nodes_.length) :
    (c.afterCall call).position_ ≤ (c.afterCall call).nodes_.length := by
  cases call with
  | add node => simp [afterCall, Add]; omega
  | get =>
    by_cases hlt : c.position_ < c.nodes_.length
    · simp [afterCall, Get_of_lt c hlt]; omega
    · simp [afterCall, Get_of_not_lt c hlt]; exact h
  | rewind => simp [afterCall, Rewind]

theorem afterCalls_inv (c : NodeCache O Op P) (calls : List (Call O Op P))
    (h : c.position_ ≤ c.nodes_.length) :
    (c.afterCalls calls).position_ ≤ (c.afterCalls calls).nodes_.length := by
  induction calls generalizing c with
  | nil => simpa [afterCalls] using h
  | cons a t ih =>
    have := ih (c.afterCall a) (afterCall_inv c a h)
    simpa [afterCalls] using this

theorem Reachable.position_le {c : NodeCache O Op P} (h : Reachable c) :
    c.position_ ≤ c.nodes_.length := by
  obtain ⟨calls, rfl⟩ := h
  exact afterCalls_inv empty calls (by simp [empty])

/-! ### Replay order -/

/-- C1: after adding the fragments `fs` to a default-constructed cache, any number `k` of
replay passes (each `Rewind` followed by `fs.length` calls of `Get`) succeeds and every
pass returns exactly `fs`; the pass that follows them succeeds as well, returns `fs`
again, and one more `Get` in that pass fails (also seen as: a pass of `fs.length + 1`
calls of `Get` fails). -/
theorem replay_yields_add_order (fs : List (CachedNode O Op P)) (k : Nat) :
    ∃ ck cn : NodeCache O Op P,
      replayPasses fs.length k (addAll empty fs) = .ok (List.replicate k fs, ck) ∧
      replayPass fs.length ck = .ok (fs, cn) ∧
      (∃ e, cn.Get = .error e) ∧
      (∃ e, replayPass (fs.length + 1) ck = .error e) := by
  have hadd : addAll (empty : NodeCache O Op P) fs = { nodes_ := fs, position_ := 0 } := by
    simp [addAll_eq, empty]
  have hfail : ∀ q : Nat, ∃ e,
      replayPass (fs.length + 1) ({ nodes_ := fs, position_ := q } : NodeCache O Op P)
        = .error e := by
    intro q
    have h0 := getN_suffix [] fs
    simp only [List.nil_append, List.length_nil] at h0
    have h1 : ∀ (n : Nat) (l : List (CachedNode O Op P)) (pre : List (CachedNode O Op P)),
        l.length = n →
        ∃ e, getN (n + 1) ({ nodes_ := pre ++ l, position_ := pre.length } : NodeCache O Op P)
          = .error e := by
      intro n
      induction n with
      | zero =>
        intro l pre hl
        have : l = [] := List.length_eq_zero.mp hl
        subst this
        refine ⟨.check_lt pre.length pre.length, ?_⟩
        simp [getN, Get]
      | succ n ih =>
        intro l pre hl
        obtain ⟨a, t, rfl⟩ := List.exists_cons_of_length_eq_add_one hl
        have hlt : pre.length < (pre ++ a :: t).length := by simp
        have hget := Get_of_lt { nodes_ := pre ++ a :: t, position_ := pre.length } hlt
        obtain ⟨e, he⟩ := ih t (pre ++ [a]) (by simpa using hl)
        simp only [List.append_assoc, List.singleton_append, List.length_append,
          List.length_singleton] at he
        refine ⟨e, ?_⟩
        rw [getN, hget]
        simp only [he]
    simpa [replayPass, Rewind] using h1 fs.length fs [] rfl
  cases k with
  | zero =>
    refine ⟨addAll empty fs, { nodes_ := fs, position_ := fs.length }, ?_, ?_, ?_, ?_⟩
    · simp [replayPasses]
    · rw [hadd]; exact replayPass_full fs 0
    · exact ⟨_, Get_of_not_lt _ (by simp)⟩
    · rw [hadd]; exact hfail 0
  | succ k =>
    refine ⟨{ nodes_ := fs, position_ := fs.length },
      { nodes_ := fs, position_ := fs.length }, ?_, ?_, ?_, ?_⟩
    · rw [hadd]; exact replayPasses_full fs k 0
    · exact replayPass_full fs fs.length
    · exact ⟨_, Get_of_not_lt _ (by simp)⟩
    · exact hfail fs.length

/-! ### The contract of `Get` -/

/-- C2: `Get` fails exactly when `Empty()` holds; a `Get` that does not fail returns
`nodes_[position_]`, leaves `nodes_` as it was and leaves the cursor at `position_ + 1`
(and when `Empty()` is false `Get` does return). -/
theorem Get_contract (c : NodeCache O Op P) :
    ((∃ e, c.Get = .error e) ↔ c.Empty = true) ∧
    (c.Empty = false → ∃ node cn, c.Get = .ok (node, cn)) ∧
    (∀ node cn, c.Get = .ok (node, cn) →
      c.nodes_[c.position_]? = some node ∧ cn.nodes_ = c.nodes_ ∧
        cn.position_ = c.position_ + 1) := by
  by_cases hlt : c.position_ < c.nodes_.length
  · have hget := Get_of_lt c hlt
    have hE : c.Empty = false := by simp [Empty, hlt]
    refine ⟨?_, ?_, ?_⟩
    · simp [hget, hE]
    · intro _; exact ⟨_, _, hget⟩
    · intro node cn h
      rw [hget] at h
      simp only [Except.ok.injEq, Prod.mk.injEq] at h
      obtain ⟨h1, h2⟩ := h
      subst h1 h2
      simp [List.getElem?_eq_getElem hlt]
  · have hget := Get_of_not_lt c hlt
    have hE : c.Empty = true := by simp [Empty]; omega
    refine ⟨?_, ?_, ?_⟩
    · simp [hget, hE]
    · intro h; rw [hE] at h; exact absurd h (by simp)
    · intro node cn h
      rw [hget] at h
      cases h

/-- A non-exhausted cache at which `Get_contract` is evaluated. -/
theorem Get_contract_witness :
    (((∃ e, (⟨[CachedNode.ofOutput 7 [1, 2], CachedNode.ofOperation 8 [3]], 1⟩ :
        NodeCache Nat Nat Nat).Get = .error e) ↔
      (⟨[CachedNode.ofOutput 7 [1, 2], CachedNode.ofOperation 8 [3]], 1⟩ :
        NodeCache Nat Nat Nat).Empty = true) ∧
    ((⟨[CachedNode.ofOutput 7 [1, 2], CachedNode.ofOperation 8 [3]], 1⟩ :
        NodeCache Nat Nat Nat).Empty = false →
      ∃ node cn, (⟨[CachedNode.ofOutput 7 [1, 2], CachedNode.ofOperation 8 [3]], 1⟩ :
        NodeCache Nat Nat Nat).Get = .ok (node, cn)) ∧
    (∀ node cn, (⟨[CachedNode.ofOutput 7 [1, 2], CachedNode.ofOperation 8 [3]], 1⟩ :
        NodeCache Nat Nat Nat).Get = .ok (node, cn) →
      [CachedNode.ofOutput 7 [1, 2], CachedNode.ofOperation 8 [3]][1]? = some node ∧
        cn.nodes_ = [CachedNode.ofOutput 7 [1, 2], CachedNode.ofOperation 8 [3]] ∧
        cn.position_ = 1 + 1)) ∧
    (⟨[CachedNode.ofOutput 7 [1, 2], CachedNode.ofOperation 8 [3]], 1⟩ :
        NodeCache Nat Nat Nat).Empty = false ∧
    (⟨[CachedNode.ofOutput 7 [1, 2], CachedNode.ofOperation 8 [3]], 1⟩ :
        NodeCache Nat Nat Nat).Get =
      .ok (CachedNode.ofOperation 8 [3],
        ⟨[CachedNode.ofOutput 7 [1, 2], CachedNode.ofOperation 8 [3]], 2⟩) :=
  ⟨Get_contract _, by decide, rfl⟩

/-! ### The cursor stays in range -/

/-- C3: in every cache reachable from the default-constructed one by `Add`, `Rewind`
and `Get` calls (failing ones included), `0 ≤ position_ ≤ nodes_.size()`. -/
theorem cursor_in_range (c : NodeCache O Op P) (h : Reachable c) :
    0 ≤ c.position_ ∧ c.position_ ≤ c.nodes_.length :=
  ⟨Nat.zero_le _, h.position_le⟩

/-- A reachable cache (two adds, a read, a failed read after the end, a rewind, a read)
at which `cursor_in_range` is evaluated. -/
theorem cursor_in_range_witness :
    Reachable (⟨[CachedNode.ofOutput 7 [1], CachedNode.ofOperation 8 []], 1⟩ :
      NodeCache Nat Nat Nat) ∧
    (0 ≤ 1 ∧ 1 ≤ [(CachedNode.ofOutput 7 [1] : CachedNode Nat Nat Nat),
      CachedNode.ofOperation 8 []].length) :=
  have hr : Reachable (⟨[CachedNode.ofOutput 7 [1], CachedNode.ofOperation 8 []], 1⟩ :
      NodeCache Nat Nat Nat) :=
    ⟨[.add (CachedNode.ofOutput 7 [1]), .get, .get, .add (CachedNode.ofOperation 8 []),
      .get, .get, .rewind, .get], rfl⟩
  ⟨hr, cursor_in_range _ hr⟩

/-- C4: on every reachable cache the test `position_ >= nodes_.size()` of `Empty()`
coincides with `position_ == nodes_.size()`. -/
theorem Empty_iff_cursor_at_end (c : NodeCache O Op P) (h : Reachable c) :
    c.Empty = true ↔ c.position_ = c.nodes_.length := by
  have hle := h.position_le
  rw [Empty_iff]
  omega

/-- A reachable, exhausted cache at which `Empty_iff_cursor_at_end` is evaluated. -/
theorem Empty_iff_cursor_at_end_witness :
    Reachable (⟨[CachedNode.ofOutput 7 [1]], 1⟩ : NodeCache Nat Nat Nat) ∧
    ((⟨[CachedNode.ofOutput 7 [1]], 1⟩ : NodeCache Nat Nat Nat).Empty = true ↔
      1 = [(CachedNode.ofOutput 7 [1] : CachedNode Nat Nat Nat)].length) :=
  have hr : Reachable (⟨[CachedNode.ofOutput 7 [1]], 1⟩ : NodeCache Nat Nat Nat) :=
    ⟨[.add (CachedNode.ofOutput 7 [1]), .get], rfl⟩
  ⟨hr, Empty_iff_cursor_at_end _ hr⟩

/-! ### Frame properties of `Add` and `Rewind` -/

/-- C7: `Add(f)` turns the entries `nodes_` into `nodes_ ++ [f]`: the new entry is the
last one, every earlier entry keeps its index and value, and the cursor is untouched.
`Add` is a total function: it has no failing branch. -/
theorem Add_appends (c : NodeCache O Op P) (f : CachedNode O Op P) :
    (c.Add f).nodes_ = c.nodes_ ++ [f] ∧
    (c.Add f).position_ = c.position_ ∧
    (c.Add f).nodes_.length = c.nodes_.length + 1 ∧
    (c.Add f).nodes_[c.nodes_.length]? = some f ∧
    (∀ i, i < c.nodes_.length → (c.Add f).nodes_[i]? = c.nodes_[i]?) := by
  refine ⟨rfl, rfl, by simp [Add], by simp [Add], ?_⟩
  intro i hi
  simp [Add, List.getElem?_append_left hi]

/-- A cache with one entry and the cursor at 1 at which `Add_appends` is evaluated. -/
theorem Add_appends_witness :
    (((⟨[CachedNode.ofOutput 7 [1]], 1⟩ : NodeCache Nat Nat Nat).Add
        (CachedNode.ofOperation 8 [])).nodes_ =
      [CachedNode.ofOutput 7 [1]] ++ [CachedNode.ofOperation 8 []] ∧
    ((⟨[CachedNode.ofOutput 7 [1]], 1⟩ : NodeCache Nat Nat Nat).Add
        (CachedNode.ofOperation 8 [])).position_ = 1 ∧
    ((⟨[CachedNode.ofOutput 7 [1]], 1⟩ : NodeCache Nat Nat Nat).Add
        (CachedNode.ofOperation 8 [])).nodes_.length = 1 + 1 ∧
    ((⟨[CachedNode.ofOutput 7 [1]], 1⟩ : NodeCache Nat Nat Nat).Add
        (CachedNode.ofOperation 8 [])).nodes_[1]? = some (CachedNode.ofOperation 8 []) ∧
    (∀ i, i < 1 → ((⟨[CachedNode.ofOutput 7 [1]], 1⟩ : NodeCache Nat Nat Nat).Add
        (CachedNode.ofOperation 8 [])).nodes_[i]? =
      [(CachedNode.ofOutput 7 [1] : CachedNode Nat Nat Nat)][i]?)) ∧
    ((⟨[CachedNode.ofOutput 7 [1]], 1⟩ : NodeCache Nat Nat Nat).Add
        (CachedNode.ofOperation 8 [])) =
      ⟨[CachedNode.ofOutput 7 [1], CachedNode.ofOperation 8 []], 1⟩ :=
  ⟨Add_appends _ _, by decide⟩

/-- C9: `Rewind` sets the cursor to 0 and keeps the entries; `Add` keeps the cursor, a
`Get` that returns moves it up by exactly one, a `Get` that fails keeps it; hence a call
after which the cursor is smaller than before is a `Rewind`. -/
theorem Rewind_resets_cursor (c : NodeCache O Op P) :
    c.Rewind.position_ = 0 ∧ c.Rewind.nodes_ = c.nodes_ ∧
    (∀ f, (c.Add f).position_ = c.position_) ∧
    (∀ node cn, c.Get = .ok (node, cn) → cn.position_ = c.position_ + 1) ∧
    (∀ call, (c.afterCall call).position_ < c.position_ → call = .rewind) := by
  have hget : ∀ node cn, c.Get = .ok (node, cn) → cn.position_ = c.position_ + 1 := by
    intro node cn h
    by_cases hlt : c.position_ < c.nodes_.length
    · rw [Get_of_lt c hlt] at h
      simp only [Except.ok.injEq, Prod.mk.injEq] at h
      rw [← h.2]
    · rw [Get_of_not_lt c hlt] at h
      cases h
  refine ⟨rfl, rfl, fun _ => rfl, hget, ?_⟩
  intro call h
  cases call with
  | add node => simp [afterCall, Add] at h
  | get =>
    exfalso
    by_cases hlt : c.position_ < c.nodes_.length
    · simp [afterCall, Get_of_lt c hlt] at h
    · simp [afterCall, Get_of_not_lt c hlt] at h
  | rewind => rfl

/-- A cache with the cursor at 2 at which `Rewind_resets_cursor` is evaluated: the
rewind is the call that lowers the cursor. -/
theorem Rewind_resets_cursor_witness :
    ((⟨[CachedNode.ofOutput 7 [1], CachedNode.ofOperation 8 []], 2⟩ :
        NodeCache Nat Nat Nat).afterCall .rewind).position_ < 2 ∧
    (Call.rewind : Call Nat Nat Nat) = .rewind ∧
    (⟨[CachedNode.ofOutput 7 [1], CachedNode.ofOperation 8 []], 2⟩ :
        NodeCache Nat Nat Nat).Rewind =
      ⟨[CachedNode.ofOutput 7 [1], CachedNode.ofOperation 8 []], 0⟩ :=
  have h : ((⟨[CachedNode.ofOutput 7 [1], CachedNode.ofOperation 8 []], 2⟩ :
        NodeCache Nat Nat Nat).afterCall .rewind).position_ < 2 := by decide
  ⟨h, (Rewind_resets_cursor (⟨[CachedNode.ofOutput 7 [1], CachedNode.ofOperation 8 []], 2⟩ :
        NodeCache Nat Nat Nat)).2.2.2.2 .rewind h, by decide⟩

end NodeCache

/-! ## Properties of `CachedNode` -/

namespace CachedNode

variable {O Op P : Type}

/-- C8: the `Output` constructor yields a node with `output` present and `operation`
absent, the `Operation` constructor one with `operation` present and `output` absent,
both store the place-holder list as given, and a node obtained from a constructor has
exactly one of the two present (never both, never none). -/
theorem exactly_one_terminal :
    (∀ (o : O) (hs : List P),
      (ofOutput o hs : CachedNode O Op P).output = some o ∧
      (ofOutput o hs : CachedNode O Op P).operation = none ∧
      (ofOutput o hs : CachedNode O Op P).holders = hs) ∧
    (∀ (op : Op) (hs : List P),
      (ofOperation op hs : CachedNode O Op P).operation = some op ∧
      (ofOperation op hs : CachedNode O Op P).output = none ∧
      (ofOperation op hs : CachedNode O Op P).holders = hs) ∧
    (∀ n : CachedNode O Op P, Constructed n →
      (n.output.isSome = true ∧ n.operation.isSome = false) ∨
      (n.output.isSome = false ∧ n.operation.isSome = true)) := by
  refine ⟨fun _ _ => ⟨rfl, rfl, rfl⟩, fun _ _ => ⟨rfl, rfl, rfl⟩, ?_⟩
  intro n hn
  cases hn with
  | byOutput o hs => exact Or.inl ⟨rfl, rfl⟩
  | byOperation op hs => exact Or.inr ⟨rfl, rfl⟩

/-- A node built by the `Operation` constructor at which `exactly_one_terminal` is
evaluated. -/
theorem exactly_one_terminal_witness :
    Constructed (ofOperation 8 [3, 4] : CachedNode Nat Nat Nat) ∧
    (((ofOperation 8 [3, 4] : CachedNode Nat Nat Nat).output.isSome = true ∧
      (ofOperation 8 [3, 4] : CachedNode Nat Nat Nat).operation.isSome = false) ∨
     ((ofOperation 8 [3, 4] : CachedNode Nat Nat Nat).output.isSome = false ∧
      (ofOperation 8 [3, 4] : CachedNode Nat Nat Nat).operation.isSome = true)) ∧
    (ofOperation 8 [3, 4] : CachedNode Nat Nat Nat).holders = [3, 4] :=
  ⟨.byOperation 8 [3, 4],
   (@exactly_one_terminal Nat Nat Nat).2.2 _ (.byOperation 8 [3, 4]),
   rfl⟩

end CachedNode

end xla

/-! ## Properties of the cache table of `XrtSession` -/

namespace xla

theorem mapFind_mapStore_same {V : Type} (m : List (String × V)) (key : String) (v : V) :
    mapFind (mapStore m key v) key = some v := by
  induction m with
  | nil => simp [mapStore, mapFind]
  | cons a t ih =>
    obtain ⟨k, w⟩ := a
    by_cases hk : k = key
    · simp [mapStore, mapFind, hk]
    · simp [mapStore, mapFind, hk, ih]

theorem mapFind_mapStore_other {V : Type} (m : List (String × V)) (key other : String) (v : V)
    (h : other ≠ key) : mapFind (mapStore m key v) other = mapFind m other := by
  induction m with
  | nil => simp [mapStore, mapFind, Ne.symm h]
  | cons a t ih =>
    obtain ⟨k, w⟩ := a
    by_cases hk : k = key
    · have hne : ¬ key = other := fun e => h e.symm
      simp [mapStore, mapFind, hk, hne]
    · by_cases hko : k = other
      · subst hko
        simp [mapStore, mapFind, hk]
      · simp [mapStore, mapFind, hk, hko, ih]

namespace XrtSession

variable {O Op P : Type}

theorem GetNodeCache_snd (s : XrtSession O Op P) (key : String) :
    (s.GetNodeCache key).2 = ⟨key⟩ := by
  unfold GetNodeCache
  cases mapFind s.node_cache_ key <;> rfl

theorem GetNodeCache_of_present (s : XrtSession O Op P) (key : String) (c : NodeCache O Op P)
    (h : mapFind s.node_cache_ key = some c) : s.GetNodeCache key = (s, ⟨key⟩) := by
  simp [GetNodeCache, h]

theorem GetNodeCache_deref_other (s : XrtSession O Op P) (key : String) (p : NodeCachePtr)
    (h : p.key ≠ key) : (s.GetNodeCache key).1.deref p = s.deref p := by
  unfold GetNodeCache
  cases hf : mapFind s.node_cache_ key with
  | some c => rfl
  | none => simp [deref, mapFind_mapStore_other _ _ _ _ h]

theorem callVia_deref_other (s : XrtSession O Op P) (q p : NodeCachePtr)
    (call : NodeCache.Call O Op P) (h : p.key ≠ q.key) :
    (s.callVia q call).deref p = s.deref p := by
  unfold callVia
  cases hq : s.deref q with
  | some c => simp [deref, mapFind_mapStore_other _ _ _ _ h]
  | none => rfl

theorem callVia_deref_same (s : XrtSession O Op P) (p : NodeCachePtr)
    (call : NodeCache.Call O Op P) (c : NodeCache O Op P) (h : s.deref p = some c) :
    (s.callVia p call).deref p = some (c.afterCall call) := by
  unfold callVia
  rw [h]
  simp [deref, mapFind_mapStore_same]

theorem afterActions_deref (acts : List (Action O Op P)) (s : XrtSession O Op P)
    (p : NodeCachePtr) (c : NodeCache O Op P) (h : s.deref p = some c) :
    (s.afterActions acts).deref p = some (c.afterCalls (callsVia p acts)) := by
  induction acts generalizing s c with
  | nil => simpa [afterActions, callsVia, NodeCache.afterCalls] using h
  | cons a t ih =>
    cases a with
    | getNodeCache key =>
      have h1 : (s.GetNodeCache key).1.deref p = some c := by
        by_cases hk : p.key = key
        · subst hk
          rw [GetNodeCache_of_present s p.key c h]
          exact h
        · rw [GetNodeCache_deref_other s key p hk]
          exact h
      have := ih _ c h1
      simpa [afterActions, afterAction, callsVia] using this
    | via q call =>
      by_cases hq : q = p
      · subst hq
        have := ih _ _ (callVia_deref_same s q call c h)
        simpa [afterActions, afterAction, callsVia, NodeCache.afterCalls] using this
      · have hk : p.key ≠ q.key := by
          intro e
          apply hq
          cases p
          cases q
          simp_all
        have h1 : (s.callVia q call).deref p = some c := by
          rw [callVia_deref_other s q p call hk]
          exact h
        have := ih _ c h1
        simpa [afterActions, afterAction, callsVia, hq] using this

theorem afterActions_deref_frame (acts : List (Action O Op P)) (s : XrtSession O Op P)
    (p : NodeCachePtr) (h : ∀ a ∈ acts, a.key ≠ p.key) :
    (s.afterActions acts).deref p = s.deref p := by
  induction acts generalizing s with
  | nil => rfl
  | cons a t ih =>
    have ha : a.key ≠ p.key := h a (List.mem_cons_self _ _)
    have ht : ∀ b ∈ t, b.key ≠ p.key := fun b hb => h b (List.mem_cons_of_mem _ hb)
    have hstep : (s.afterAction a).deref p = s.deref p := by
      cases a with
      | getNodeCache key =>
        exact GetNodeCache_deref_other s key p (fun e => ha e.symm)
      | via q call =>
        exact callVia_deref_other s q p call (fun e => ha e.symm)
    have := ih (s.afterAction a) ht
    rw [hstep] at this
    simpa [afterActions] using this

/-! ### One cache per key -/

/-- C5: `GetNodeCache(k)` always returns a pointer to an existing slot.  When `k` was
never used the slot holds a default-constructed cache (no entries, cursor 0, `Empty()`
true); when `k` already has a cache, that cache is the one returned.  After any further
actions on the session (lookups of any key, member calls through any pointer), a later
`GetNodeCache(k)` returns the same pointer without changing the session, and the cache
it designates is the first one with every call made through the pointer applied, in
order. -/
theorem GetNodeCache_same_cache (s : XrtSession O Op P) (k : String)
    (acts : List (Action O Op P)) :
    ∃ c0 : NodeCache O Op P,
      (s.GetNodeCache k).1.deref (s.GetNodeCache k).2 = some c0 ∧
      (mapFind s.node_cache_ k = none →
        c0.nodes_ = [] ∧ c0.position_ = 0 ∧ c0.Empty = true) ∧
      (∀ c, mapFind s.node_cache_ k = some c → c0 = c) ∧
      ((s.GetNodeCache k).1.afterActions acts).GetNodeCache k =
        ((s.GetNodeCache k).1.afterActions acts, (s.GetNodeCache k).2) ∧
      ((s.GetNodeCache k).1.afterActions acts).deref (s.GetNodeCache k).2 =
        some (c0.afterCalls (callsVia (s.GetNodeCache k).2 acts)) := by
  have hsnd := GetNodeCache_snd s k
  have hfirst : ∃ c0 : NodeCache O Op P,
      (s.GetNodeCache k).1.deref ⟨k⟩ = some c0 ∧
      (mapFind s.node_cache_ k = none →
        c0.nodes_ = [] ∧ c0.position_ = 0 ∧ c0.Empty = true) ∧
      (∀ c, mapFind s.node_cache_ k = some c → c0 = c) := by
    cases hf : mapFind s.node_cache_ k with
    | some c =>
      refine ⟨c, ?_, ?_, ?_⟩
      · rw [GetNodeCache_of_present s k c hf]
        exact hf
      · intro h; cases h
      · intro c1 h; cases h; rfl
    | none =>
      refine ⟨NodeCache.empty, ?_, ?_, ?_⟩
      · simp [GetNodeCache, hf, deref, mapFind_mapStore_same]
      · intro _; exact ⟨rfl, rfl, rfl⟩
      · intro c h; cases h
  obtain ⟨c0, h0, hnew, hold⟩ := hfirst
  rw [hsnd]
  have hlater := afterActions_deref acts (s.GetNodeCache k).1 ⟨k⟩ c0 h0
  refine ⟨c0, h0, hnew, hold, ?_, hlater⟩
  exact GetNodeCache_of_present _ k _ hlater

/-- A fresh session at which `GetNodeCache_same_cache` is evaluated: key "convA" is
looked up, a node is added and read through the pointer while another key is used, and
the later lookup of "convA" sees one entry and the cursor at 1. -/
theorem GetNodeCache_same_cache_witness :
    mapFind (⟨"target", []⟩ : XrtSession Nat Nat Nat).node_cache_ "convA" = none ∧
    (((⟨"target", []⟩ : XrtSession Nat Nat Nat).GetNodeCache "convA").1.afterActions
        [.via ⟨"convA"⟩ (.add (CachedNode.ofOutput 7 [1])), .getNodeCache "other",
         .via ⟨"other"⟩ (.add (CachedNode.ofOperation 8 [])), .via ⟨"convA"⟩ .get]).deref
      ((⟨"target", []⟩ : XrtSession Nat Nat Nat).GetNodeCache "convA").2 =
        some ⟨[CachedNode.ofOutput 7 [1]], 1⟩ ∧
    (∃ c0 : NodeCache Nat Nat Nat,
      c0.nodes_ = [] ∧ c0.position_ = 0 ∧ c0.Empty = true ∧
      (((⟨"target", []⟩ : XrtSession Nat Nat Nat).GetNodeCache "convA").1.afterActions
        [.via ⟨"convA"⟩ (.add (CachedNode.ofOutput 7 [1])), .getNodeCache "other",
         .via ⟨"other"⟩ (.add (CachedNode.ofOperation 8 [])), .via ⟨"convA"⟩ .get]).deref
      ((⟨"target", []⟩ : XrtSession Nat Nat Nat).GetNodeCache "convA").2 =
        some (c0.afterCalls
          [.add (CachedNode.ofOutput 7 [1]), .get])) :=
  have hk : mapFind (⟨"target", []⟩ : XrtSession Nat Nat Nat).node_cache_ "convA" = none := rfl
  ⟨hk, by decide,
    match GetNodeCache_same_cache (⟨"target", []⟩ : XrtSession Nat Nat Nat) "convA"
        [.via ⟨"convA"⟩ (.add (CachedNode.ofOutput 7 [1])), .getNodeCache "other",
         .via ⟨"other"⟩ (.add (CachedNode.ofOperation 8 [])), .via ⟨"convA"⟩ .get] with
    | ⟨c0, _, hnew, _, _, hlater⟩ =>
      ⟨c0, (hnew hk).1, (hnew hk).2.1, (hnew hk).2.2, hlater⟩⟩

/-- C6: for keys `k1 ≠ k2`, `GetNodeCache(k1)` and every member call made through the
pointer it returns (on any state of the session) leave the cache of `k2` (its entries
and its cursor, or its absence) as it was; so does every sequence of actions on `k1`. -/
theorem distinct_keys_do_not_share (s : XrtSession O Op P) (k1 k2 : String) (h : k1 ≠ k2) :
    (s.GetNodeCache k1).1.deref ⟨k2⟩ = s.deref ⟨k2⟩ ∧
    (∀ (t : XrtSession O Op P) (call : NodeCache.Call O Op P),
      (t.callVia (s.GetNodeCache k1).2 call).deref ⟨k2⟩ = t.deref ⟨k2⟩) ∧
    (∀ acts : List (Action O Op P), (∀ a ∈ acts, a.key = k1) →
      (s.afterActions acts).deref ⟨k2⟩ = s.deref ⟨k2⟩) := by
  refine ⟨?_, ?_, ?_⟩
  · exact GetNodeCache_deref_other s k1 ⟨k2⟩ (fun e => h e.symm)
  · intro t call
    rw [GetNodeCache_snd]
    exact callVia_deref_other t ⟨k1⟩ ⟨k2⟩ call (fun e => h e.symm)
  · intro acts hacts
    apply afterActions_deref_frame
    intro a ha
    rw [hacts a ha]
    exact h

/-- The keys "convA|deviceX" and "convA|deviceY" at which `distinct_keys_do_not_share`
is evaluated, on a session where the second key holds one entry. -/
theorem distinct_keys_do_not_share_witness :
    "convA|deviceX" ≠ "convA|deviceY" ∧
    ((⟨"target", [("convA|deviceY", ⟨[CachedNode.ofOutput 7 [1]], 1⟩)]⟩ :
        XrtSession Nat Nat Nat).afterActions
      [.getNodeCache "convA|deviceX",
       .via ⟨"convA|deviceX"⟩ (.add (CachedNode.ofOperation 8 [])),
       .via ⟨"convA|deviceX"⟩ .get,
       .via ⟨"convA|deviceX"⟩ .rewind]).deref ⟨"convA|deviceY"⟩ =
      (⟨"target", [("convA|deviceY", ⟨[CachedNode.ofOutput 7 [1]], 1⟩)]⟩ :
        XrtSession Nat Nat Nat).deref ⟨"convA|deviceY"⟩ ∧
    (⟨"target", [("convA|deviceY", ⟨[CachedNode.ofOutput 7 [1]], 1⟩)]⟩ :
        XrtSession Nat Nat Nat).deref ⟨"convA|deviceY"⟩ =
      some ⟨[CachedNode.ofOutput 7 [1]], 1⟩ :=
  have hne : "convA|deviceX" ≠ "convA|deviceY" := by decide
  ⟨hne,
   (distinct_keys_do_not_share
      (⟨"target", [("convA|deviceY", ⟨[CachedNode.ofOutput 7 [1]], 1⟩)]⟩ :
        XrtSession Nat Nat Nat) "convA|deviceX" "convA|deviceY" hne).2.2 _
      (by decide),
   by decide⟩

/-! ### Reset -/

/-- C10: after `Reset()`, `GetNodeCache(k)` designates, for every key `k` (in
particular for every key that had a cache before, whatever it held), a cache without
entries, with the cursor at 0, for which `Empty()` is true. -/
theorem Reset_clears_every_cache (s : XrtSession O Op P) (k : String) :
    ∃ c : NodeCache O Op P,
      (s.Reset.GetNodeCache k).1.deref (s.Reset.GetNodeCache k).2 = some c ∧
      c.Empty = true ∧ c.nodes_ = [] ∧ c.position_ = 0 := by
  refine ⟨NodeCache.empty, ?_, rfl, rfl, rfl⟩
  simp [Reset, GetNodeCache, mapFind, deref, mapStore]

end XrtSession

end xla

/-! ## Properties of the cache keys -/

namespace xla

/-- Two lists that agree after a first occurrence of `c` at the end of `c`-free heads
have the same heads and the same tails. -/
theorem split_at_first_separator {α : Type} (c : α) (l1 l2 r1 r2 : List α)
    (h1 : c ∉ l1) (h2 : c ∉ l2) (h : l1 ++ c :: r1 = l2 ++ c :: r2) :
    l1 = l2 ∧ r1 = r2 := by
  induction l1 generalizing l2 with
  | nil =>
    cases l2 with
    | nil => simpa using h
    | cons b t =>
      simp only [List.nil_append, List.cons_append, List.cons.injEq] at h
      exact absurd (h.1 ▸ List.mem_cons_self b t) h2
  | cons a t ih =>
    cases l2 with
    | nil =>
      simp only [List.nil_append, List.cons_append, List.cons.injEq] at h
      exact absurd (h.1 ▸ List.mem_cons_self a t) h1
    | cons b u =>
      simp only [List.cons_append, List.cons.injEq] at h
      have ht : c ∉ t := fun hc => h1 (List.mem_cons_of_mem _ hc)
      have hu : c ∉ u := fun hc => h2 (List.mem_cons_of_mem _ hc)
      obtain ⟨e1, e2⟩ := ih u ht hu h.2
      exact ⟨by rw [h.1, e1], e2⟩

namespace XrtSession

theorem GetCacheKey_data (sep : Char) (op_name device : String) :
    (GetCacheKey sep op_name device).data = op_name.data ++ sep :: device.data := by
  simp [GetCacheKey, String.data_append, String.singleton]

/-- C11: `GetCacheKey` is a function of its arguments, and on the supported key space
(the separator appears in neither component) it is collision-free, whatever the
separator is: two pairs have the same key exactly when they have the same operator name
and the same device, so pairs that differ in the operator name or in the device have
different keys. -/
theorem GetCacheKey_collision_free (sep : Char) (op1 dev1 op2 dev2 : String)
    (h1 : supportedKey sep op1 dev1) (h2 : supportedKey sep op2 dev2) :
    (GetCacheKey sep op1 dev1 = GetCacheKey sep op2 dev2 ↔ op1 = op2 ∧ dev1 = dev2) ∧
    ((op1 ≠ op2 ∨ dev1 ≠ dev2) → GetCacheKey sep op1 dev1 ≠ GetCacheKey sep op2 dev2) := by
  have hiff : GetCacheKey sep op1 dev1 = GetCacheKey sep op2 dev2 ↔
      op1 = op2 ∧ dev1 = dev2 := by
    constructor
    · intro h
      have hd : op1.data ++ sep :: dev1.data = op2.data ++ sep :: dev2.data := by
        rw [← GetCacheKey_data, ← GetCacheKey_data, h]
      obtain ⟨e1, e2⟩ := split_at_first_separator sep _ _ _ _ h1.1 h2.1 hd
      exact ⟨String.ext e1, String.ext e2⟩
    · rintro ⟨rfl, rfl⟩
      rfl
  refine ⟨hiff, ?_⟩
  intro hne hkey
  obtain ⟨e1, e2⟩ := hiff.mp hkey
  rcases hne with hne | hne
  · exact hne e1
  · exact hne e2

/-- The operator "convA" on the devices "deviceX" and "deviceY", with the separators
`|` and `;`, at which `GetCacheKey_collision_free` is evaluated: the keys differ. -/
theorem GetCacheKey_collision_free_witness :
    supportedKey '|' "convA" "deviceX" ∧ supportedKey '|' "convA" "deviceY" ∧
    supportedKey ';' "convA" "deviceX" ∧ supportedKey ';' "convA" "deviceY" ∧
    GetCacheKey '|' "convA" "deviceX" = "convA|deviceX" ∧
    GetCacheKey '|' "convA" "deviceY" = "convA|deviceY" ∧
    GetCacheKey ';' "convA" "deviceX" = "convA;deviceX" ∧
    GetCacheKey '|' "convA" "deviceX" ≠ GetCacheKey '|' "convA" "deviceY" ∧
    GetCacheKey ';' "convA" "deviceX" ≠ GetCacheKey ';' "convA" "deviceY" :=
  have hx : supportedKey '|' "convA" "deviceX" := by decide
  have hy : supportedKey '|' "convA" "deviceY" := by decide
  have hx2 : supportedKey ';' "convA" "deviceX" := by decide
  have hy2 : supportedKey ';' "convA" "deviceY" := by decide
  ⟨hx, hy, hx2, hy2, by decide, by decide, by decide,
    (GetCacheKey_collision_free '|' "convA" "deviceX" "convA" "deviceY" hx hy).2
      (Or.inr (by decide)),
    (GetCacheKey_collision_free ';' "convA" "deviceX" "convA" "deviceY" hx2 hy2).2
      (Or.inr (by decide))⟩

end XrtSession

/-! ## Properties of build-or-replay passes -/

namespace NodeCache

variable {O Op P : Type}

theorem buildOrReplayStep_build (pre : List (CachedNode O Op P)) (f : CachedNode O Op P) :
    buildOrReplayStep { nodes_ := pre, position_ := pre.length } f =
      .ok (f, { nodes_ := pre ++ [f], position_ := pre.length + 1 }) := by
  have hE : Empty ({ nodes_ := pre, position_ := pre.length } : NodeCache O Op P) = true := by
    simp [Empty]
  have hlt : pre.length < (pre ++ [f]).length := by simp
  have hget := Get_of_lt { nodes_ := pre ++ [f], position_ := pre.length } hlt
  simp only [buildOrReplayStep, hE, if_true, Add]
  rw [hget]
  simp

theorem buildOrReplayStep_replay (pre rest : List (CachedNode O Op P))
    (f g : CachedNode O Op P) :
    buildOrReplayStep { nodes_ := pre ++ f :: rest, position_ := pre.length } g =
      .ok (f, { nodes_ := pre ++ f :: rest, position_ := pre.length + 1 }) := by
  have hE : Empty ({ nodes_ := pre ++ f :: rest, position_ := pre.length } :
      NodeCache O Op P) = false := by
    simp [Empty]
  have hlt : pre.length < (pre ++ f :: rest).length := by simp
  have hget := Get_of_lt { nodes_ := pre ++ f :: rest, position_ := pre.length } hlt
  simp only [buildOrReplayStep, hE]
  rw [if_neg (by simp), hget]
  simp [List.getElem_append_right]

theorem buildOrReplayPass_build (fs pre : List (CachedNode O Op P)) :
    buildOrReplayPass fs { nodes_ := pre, position_ := pre.length } =
      .ok (fs, { nodes_ := pre ++ fs, position_ := (pre ++ fs).length }) := by
  induction fs generalizing pre with
  | nil => simp [buildOrReplayPass]
  | cons f t ih =>
    have ih1 := ih (pre ++ [f])
    simp only [List.append_assoc, List.singleton_append, List.length_append,
      List.length_singleton, List.length_cons, List.length_nil, Nat.zero_add] at ih1
    simp only [buildOrReplayPass, buildOrReplayStep_build, ih1]
    simp

theorem buildOrReplayPass_replay (rest pre gs : List (CachedNode O Op P))
    (h : gs.length = rest.length) :
    buildOrReplayPass gs { nodes_ := pre ++ rest, position_ := pre.length } =
      .ok (rest, { nodes_ := pre ++ rest, position_ := (pre ++ rest).length }) := by
  induction rest generalizing pre gs with
  | nil =>
    have : gs = [] := List.length_eq_zero.mp h
    subst this
    simp [buildOrReplayPass]
  | cons f t ih =>
    obtain ⟨g, gt, rfl⟩ := List.exists_cons_of_length_eq_add_one h
    have hgt : gt.length = t.length := by simpa using h
    have ih1 := ih (pre ++ [f]) gt hgt
    simp only [List.append_assoc, List.singleton_append, List.length_append,
      List.length_singleton, List.length_cons, List.length_nil, Nat.zero_add] at ih1
    simp only [buildOrReplayPass, buildOrReplayStep_replay, ih1]
    simp

theorem laterPasses_replay (fs : List (CachedNode O Op P))
    (gss : List (List (CachedNode O Op P)))
    (h : ∀ gs ∈ gss, gs.length = fs.length) :
    laterPasses gss { nodes_ := fs, position_ := fs.length } =
      .ok (List.replicate gss.length fs, { nodes_ := fs, position_ := fs.length }) := by
  induction gss with
  | nil => simp [laterPasses]
  | cons gs t ih =>
    have hgs : gs.length = fs.length := h gs (List.mem_cons_self _ _)
    have ht : ∀ g ∈ t, g.length = fs.length := fun g hg => h g (List.mem_cons_of_mem _ hg)
    have hpass := buildOrReplayPass_replay fs [] gs hgs
    simp only [List.nil_append, List.length_nil] at hpass
    simp only [laterPasses, Rewind, hpass, ih ht]
    simp [List.replicate_succ]

/-- C12: starting from the default-constructed cache, a first pass of build-or-replay
steps that would build `fs` never fails, returns `fs` in build order and leaves the
cache holding exactly `fs` with the cursor at the end (exhausted); each step taken on
an exhausted cache returns the fragment it builds and leaves the cache exhausted again;
every later pass of the same number of steps, each started by `Rewind`, builds nothing
(the entries stay `fs`) and returns `fs` in the same order, whatever its steps would
have built. -/
theorem build_or_replay_passes (fs : List (CachedNode O Op P))
    (gss : List (List (CachedNode O Op P))) (h : ∀ gs ∈ gss, gs.length = fs.length) :
    buildOrReplayPass fs empty = .ok (fs, { nodes_ := fs, position_ := fs.length }) ∧
    (∀ (pre : List (CachedNode O Op P)) (f : CachedNode O Op P),
      buildOrReplayStep { nodes_ := pre, position_ := pre.length } f =
        .ok (f, { nodes_ := pre ++ [f], position_ := pre.length + 1 }) ∧
      Empty ({ nodes_ := pre ++ [f], position_ := pre.length + 1 } : NodeCache O Op P)
        = true) ∧
    laterPasses gss { nodes_ := fs, position_ := fs.length } =
      .ok (List.replicate gss.length fs, { nodes_ := fs, position_ := fs.length }) := by
  refine ⟨?_, ?_, ?_⟩
  · have := buildOrReplayPass_build fs []
    simpa [empty] using this
  · intro pre f
    exact ⟨buildOrReplayStep_build pre f, by simp [Empty]⟩
  · exact laterPasses_replay fs gss h

/-- Two fragments and two later passes at which `build_or_replay_passes` is evaluated;
the later passes are offered other fragments and return the first two. -/
theorem build_or_replay_passes_witness :
    (∀ gs ∈ [[(CachedNode.ofOutput 1 [] : CachedNode Nat Nat Nat), CachedNode.ofOutput 2 []],
        [CachedNode.ofOutput 3 [], CachedNode.ofOutput 4 []]],
      gs.length = [(CachedNode.ofOutput 7 [1] : CachedNode Nat Nat Nat),
        CachedNode.ofOperation 8 []].length) ∧
    buildOrReplayPass [(CachedNode.ofOutput 7 [1] : CachedNode Nat Nat Nat),
        CachedNode.ofOperation 8 []] empty =
      .ok ([CachedNode.ofOutput 7 [1], CachedNode.ofOperation 8 []],
        ⟨[CachedNode.ofOutput 7 [1], CachedNode.ofOperation 8 []], 2⟩) ∧
    laterPasses [[CachedNode.ofOutput 1 [], CachedNode.ofOutput 2 []],
        [CachedNode.ofOutput 3 [], CachedNode.ofOutput 4 []]]
        (⟨[CachedNode.ofOutput 7 [1], CachedNode.ofOperation 8 []], 2⟩ :
          NodeCache Nat Nat Nat) =
      .ok ([[CachedNode.ofOutput 7 [1], CachedNode.ofOperation 8 []],
            [CachedNode.ofOutput 7 [1], CachedNode.ofOperation 8 []]],
        ⟨[CachedNode.ofOutput 7 [1], CachedNode.ofOperation 8 []], 2⟩) :=
  have hl : ∀ gs ∈ [[(CachedNode.ofOutput 1 [] : CachedNode Nat Nat Nat), CachedNode.ofOutput 2 []],
        [CachedNode.ofOutput 3 [], CachedNode.ofOutput 4 []]],
      gs.length = [(CachedNode.ofOutput 7 [1] : CachedNode Nat Nat Nat),
        CachedNode.ofOperation 8 []].length := by decide
  ⟨hl, (build_or_replay_passes _ _ hl).1, (build_or_replay_passes _ _ hl).2.2⟩

end NodeCache

end xla

/-! ## Properties of the pooling attribute helpers -/

namespace torch_xla

theorem padding_loop_eq (padding_attr : List Int) (acc : List (Int × Int)) :
    padding_attr.foldl (fun padding dim_pad => padding ++ [(dim_pad, dim_pad)]) acc =
      acc ++ padding_attr.map (fun dim_pad => (dim_pad, dim_pad)) := by
  induction padding_attr generalizing acc with
  | nil => simp
  | cons a t ih => simp [ih]

theorem MakePoolingOpAttributes_of_eq (kernel_size_attr stride_attr padding_attr : List Int)
    (spatial_dim_count : Int) (h : (padding_attr.length : Int) = spatial_dim_count) :
    MakePoolingOpAttributes kernel_size_attr stride_attr padding_attr spatial_dim_count =
      .ok { kernel_size := 1 :: 1 :: kernel_size_attr,
            stride := if stride_attr = [] then 1 :: 1 :: kernel_size_attr
                      else 1 :: 1 :: stride_attr,
            padding := padding_attr.map (fun dim_pad => (dim_pad, dim_pad)) } := by
  unfold MakePoolingOpAttributes
  simp only [h, if_true, padding_loop_eq, List.nil_append]
  cases stride_attr <;> simp [List.replicate]

theorem MakePoolingOpAttributes_of_ne (kernel_size_attr stride_attr padding_attr : List Int)
    (spatial_dim_count : Int) (h : (padding_attr.length : Int) ≠ spatial_dim_count) :
    MakePoolingOpAttributes kernel_size_attr stride_attr padding_attr spatial_dim_count =
      .error .check_failed := by
  unfold MakePoolingOpAttributes
  simp [h]

/-- C13: when `padding_attr` passes the size check, `MakePoolingOpAttributes` returns,
and the returned `kernel_size` is `[1, 1] ++ kernel_size_attr`, the returned `stride` is
the returned `kernel_size` when `stride_attr` is empty and `[1, 1] ++ stride_attr`
otherwise. -/
theorem MakePoolingOpAttributes_window (kernel_size_attr stride_attr padding_attr : List Int)
    (spatial_dim_count : Int) (h : (padding_attr.length : Int) = spatial_dim_count) :
    ∃ attrs : PoolingOpAttributes,
      MakePoolingOpAttributes kernel_size_attr stride_attr padding_attr spatial_dim_count
        = .ok attrs ∧
      attrs.kernel_size = [1, 1] ++ kernel_size_attr ∧
      (stride_attr = [] → attrs.stride = attrs.kernel_size) ∧
      (stride_attr ≠ [] → attrs.stride = [1, 1] ++ stride_attr) := by
  refine ⟨_, MakePoolingOpAttributes_of_eq _ _ _ _ h, rfl, ?_, ?_⟩
  · intro hs; simp [hs]
  · intro hs; simp [hs]

/-- A 2-d pooling with kernel 3x2, no stride attribute and padding 1, 0, and the same
with stride 2, 2, at which `MakePoolingOpAttributes_window` is evaluated. -/
theorem MakePoolingOpAttributes_window_witness :
    (([1, 0] : List Int).length : Int) = 2 ∧
    MakePoolingOpAttributes [3, 2] [] [1, 0] 2 =
      .ok { kernel_size := [1, 1, 3, 2], stride := [1, 1, 3, 2],
            padding := [(1, 1), (0, 0)] } ∧
    MakePoolingOpAttributes [3, 2] [2, 2] [1, 0] 2 =
      .ok { kernel_size := [1, 1, 3, 2], stride := [1, 1, 2, 2],
            padding := [(1, 1), (0, 0)] } ∧
    (∃ attrs : PoolingOpAttributes,
      MakePoolingOpAttributes [3, 2] [] [1, 0] 2 = .ok attrs ∧
      attrs.kernel_size = [1, 1] ++ [3, 2] ∧
      (([] : List Int) = [] → attrs.stride = attrs.kernel_size) ∧
      (([] : List Int) ≠ [] → attrs.stride = [1, 1] ++ [])) :=
  ⟨by decide, rfl, rfl, MakePoolingOpAttributes_window [3, 2] [] [1, 0] 2 (by decide)⟩

/-- C14: `MakePoolingOpAttributes` fails exactly when the number of elements of
`padding_attr` differs from `spatial_dim_count`; when it returns, the padding has
`spatial_dim_count` pairs and its `i`-th pair is `(padding_attr[i], padding_attr[i])`. -/
theorem MakePoolingOpAttributes_padding (kernel_size_attr stride_attr padding_attr : List Int)
    (spatial_dim_count : Int) :
    ((∃ e, MakePoolingOpAttributes kernel_size_attr stride_attr padding_attr
        spatial_dim_count = .error e) ↔ (padding_attr.length : Int) ≠ spatial_dim_count) ∧
    (∀ attrs, MakePoolingOpAttributes kernel_size_attr stride_attr padding_attr
        spatial_dim_count = .ok attrs →
      (attrs.padding.length : Int) = spatial_dim_count ∧
      attrs.padding.length = padding_attr.length ∧
      ∀ i, i < padding_attr.length →
        attrs.padding[i]? = (padding_attr[i]?).map (fun dim_pad => (dim_pad, dim_pad))) := by
  by_cases h : (padding_attr.length : Int) = spatial_dim_count
  · have hok := MakePoolingOpAttributes_of_eq kernel_size_attr stride_attr padding_attr _ h
    refine ⟨?_, ?_⟩
    · simp [hok, h]
    · intro attrs ha
      rw [hok] at ha
      simp only [Except.ok.injEq] at ha
      subst ha
      refine ⟨by simpa using h, by simp, ?_⟩
      intro i _
      simp
  · have herr := MakePoolingOpAttributes_of_ne kernel_size_attr stride_attr padding_attr _ h
    refine ⟨?_, ?_⟩
    · simp [herr, h]
    · intro attrs ha
      rw [herr] at ha
      cases ha

/-- A padding of two elements for two spatial dimensions, and one for three, at which
`MakePoolingOpAttributes_padding` is evaluated. -/
theorem MakePoolingOpAttributes_padding_witness :
    MakePoolingOpAttributes [3, 2] [] [1, 0] 2 =
      .ok { kernel_size := [1, 1, 3, 2], stride := [1, 1, 3, 2],
            padding := [(1, 1), (0, 0)] } ∧
    MakePoolingOpAttributes [3, 2] [] [1, 0] 3 = .error .check_failed ∧
    ((([(1, 1), (0, 0)] : List (Int × Int)).length : Int) = 2 ∧
      ([(1, 1), (0, 0)] : List (Int × Int)).length = ([1, 0] : List Int).length ∧
      ∀ i, i < ([1, 0] : List Int).length →
        ([(1, 1), (0, 0)] : List (Int × Int))[i]? =
          (([1, 0] : List Int)[i]?).map (fun dim_pad => (dim_pad, dim_pad))) :=
  ⟨rfl, rfl,
    (MakePoolingOpAttributes_padding [3, 2] [] [1, 0] 2).2
      { kernel_size := [1, 1, 3, 2], stride := [1, 1, 3, 2], padding := [(1, 1), (0, 0)] }
      rfl⟩

/-! ### Adaptive average pooling -/

theorem elemAt_of_lt (xs : List Int) (n : Nat) (i : Int) (hi : i = (n : Int))
    (hn : n < xs.length) : elemAt xs i = .ok (xs.getD n 0) := by
  subst hi
  unfold elemAt
  simp [List.getElem?_eq_getElem hn, List.getD_eq_getElem?_getD]

theorem AdaptiveAvgPoolKernelSize_eval (input_size : List Int) (hr : 2 ≤ input_size.length)
    (oh ow : Int) (hoh : oh ≠ 0) (how : ow ≠ 0)
    (hnh : ¬ (input_size.getD (input_size.length - 2) 0 = INT64_MIN ∧ oh = -1))
    (hnw : ¬ (input_size.getD (input_size.length - 1) 0 = INT64_MIN ∧ ow = -1)) :
    AdaptiveAvgPoolKernelSize input_size [oh, ow] =
      if (input_size.getD (input_size.length - 2) 0).tmod oh = 0 then
        if (input_size.getD (input_size.length - 1) 0).tmod ow = 0 then
          .ok [1, 1, (input_size.getD (input_size.length - 2) 0).tdiv oh,
            (input_size.getD (input_size.length - 1) 0).tdiv ow]
        else .error .check_failed
      else .error .check_failed := by
  have h1 : elemAt input_size ((input_size.length : Int) - 2 + 0) =
      .ok (input_size.getD (input_size.length - 2) 0) :=
    elemAt_of_lt input_size _ _ (by omega) (by omega)
  have h2 : elemAt input_size ((input_size.length : Int) - 2 + (0 + 1)) =
      .ok (input_size.getD (input_size.length - 1) 0) :=
    elemAt_of_lt input_size _ _ (by omega) (by omega)
  have h3 : elemAt [oh, ow] 0 = .ok oh := by simp [elemAt]
  have h4 : elemAt [oh, ow] (0 + 1) = .ok ow := by simp [elemAt]
  simp only [AdaptiveAvgPoolKernelSize, AdaptiveAvgPoolKernelSize_loop, h1, h2, h3, h4,
    int64_rem, int64_div, hoh, how, hnh, hnw, if_false]
  split_ifs <;> simp [List.replicate]

theorem IsSupportedAdaptiveAvgPool2d_eval (input_size : List Int)
    (hr : 2 ≤ input_size.length) (oh ow : Int) (hoh : oh ≠ 0) (how : ow ≠ 0)
    (hnh : ¬ (input_size.getD (input_size.length - 2) 0 = INT64_MIN ∧ oh = -1))
    (hnw : ¬ (input_size.getD (input_size.length - 1) 0 = INT64_MIN ∧ ow = -1)) :
    IsSupportedAdaptiveAvgPool2d input_size [oh, ow] =
      .ok (decide ((input_size.getD (input_size.length - 2) 0).tmod oh = 0 ∧
        (input_size.getD (input_size.length - 1) 0).tmod ow = 0)) := by
  have h1 : elemAt input_size ((input_size.length : Int) - 2 + 0) =
      .ok (input_size.getD (input_size.length - 2) 0) :=
    elemAt_of_lt input_size _ _ (by omega) (by omega)
  have h2 : elemAt input_size ((input_size.length : Int) - 2 + (0 + 1)) =
      .ok (input_size.getD (input_size.length - 1) 0) :=
    elemAt_of_lt input_size _ _ (by omega) (by omega)
  have h3 : elemAt [oh, ow] 0 = .ok oh := by simp [elemAt]
  have h4 : elemAt [oh, ow] (0 + 1) = .ok ow := by simp [elemAt]
  simp only [IsSupportedAdaptiveAvgPool2d, IsSupportedAdaptiveAvgPool2d_loop, h1, h2, h3, h4,
    int64_rem, hoh, how, hnh, hnw, if_false]
  split_ifs <;> simp_all

theorem tmod_eq_zero_iff_dvd (a b : Int) : a.tmod b = 0 ↔ b ∣ a :=
  ⟨Int.dvd_of_tmod_eq_zero, Int.tmod_eq_zero_of_dvd⟩

/-- C15: for an `input_size` of rank at least 2 and an `output_size` of two positive
entries: when each of the last two input dimensions is a multiple of its output
dimension, `AdaptiveAvgPoolKernelSize` returns `[1, 1, kh, kw]` with
`kh * output_size[0] = input_size[r-2]` and `kw * output_size[1] = input_size[r-1]`;
when one of them is not, the check of the function fails. -/
theorem AdaptiveAvgPoolKernelSize_tiling (input_size : List Int)
    (hr : 2 ≤ input_size.length) (oh ow : Int) (hoh : 0 < oh) (how : 0 < ow) :
    ((oh ∣ input_size.getD (input_size.length - 2) 0 ∧
        ow ∣ input_size.getD (input_size.length - 1) 0) →
      ∃ kh kw : Int, AdaptiveAvgPoolKernelSize input_size [oh, ow] = .ok [1, 1, kh, kw] ∧
        kh * oh = input_size.getD (input_size.length - 2) 0 ∧
        kw * ow = input_size.getD (input_size.length - 1) 0) ∧
    (¬ (oh ∣ input_size.getD (input_size.length - 2) 0 ∧
        ow ∣ input_size.getD (input_size.length - 1) 0) →
      AdaptiveAvgPoolKernelSize input_size [oh, ow] = .error .check_failed) := by
  have hev := AdaptiveAvgPoolKernelSize_eval input_size hr oh ow (ne_of_gt hoh) (ne_of_gt how)
    (fun h => by omega) (fun h => by omega)
  refine ⟨?_, ?_⟩
  · rintro ⟨h1, h2⟩
    have m1 := Int.tmod_eq_zero_of_dvd h1
    have m2 := Int.tmod_eq_zero_of_dvd h2
    refine ⟨_, _, ?_, Int.tdiv_mul_cancel_of_tmod_eq_zero m1,
      Int.tdiv_mul_cancel_of_tmod_eq_zero m2⟩
    rw [hev, if_pos m1, if_pos m2]
  · intro hnot
    rw [hev]
    by_cases m1 : (input_size.getD (input_size.length - 2) 0).tmod oh = 0
    · have m2 : ¬ (input_size.getD (input_size.length - 1) 0).tmod ow = 0 := fun m2 =>
        hnot ⟨Int.dvd_of_tmod_eq_zero m1, Int.dvd_of_tmod_eq_zero m2⟩
      rw [if_pos m1, if_neg m2]
    · rw [if_neg m1]

/-- An 8x6 input in NCHW layout with output sizes 4x2 (kernel 2x3) and 3x2 (8 is not a
multiple of 3) at which `AdaptiveAvgPoolKernelSize_tiling` is evaluated. -/
theorem AdaptiveAvgPoolKernelSize_tiling_witness :
    2 ≤ ([1, 3, 8, 6] : List Int).length ∧ (0 : Int) < 4 ∧ (0 : Int) < 2 ∧
    AdaptiveAvgPoolKernelSize [1, 3, 8, 6] [4, 2] = .ok [1, 1, 2, 3] ∧
    AdaptiveAvgPoolKernelSize [1, 3, 8, 6] [3, 2] = .error .check_failed ∧
    (∃ kh kw : Int, AdaptiveAvgPoolKernelSize [1, 3, 8, 6] [4, 2] = .ok [1, 1, kh, kw] ∧
      kh * 4 = ([1, 3, 8, 6] : List Int).getD (([1, 3, 8, 6] : List Int).length - 2) 0 ∧
      kw * 2 = ([1, 3, 8, 6] : List Int).getD (([1, 3, 8, 6] : List Int).length - 1) 0) :=
  ⟨by decide, by decide, by decide, rfl, rfl,
    (AdaptiveAvgPoolKernelSize_tiling [1, 3, 8, 6] (by decide) 4 2 (by decide) (by decide)).1
      (by decide)⟩

/-- C16 (as amended): for an `input_size` of rank at least 2 and an `output_size` of two
non-zero entries, where neither of the last two input dimensions is `INT64_MIN` with the
output dimension `-1`, `IsSupportedAdaptiveAvgPool2d` returns a value, which is `true`
exactly when both of the last two input dimensions are divisible by their output
dimensions, and this holds exactly when `AdaptiveAvgPoolKernelSize` returns; neither
function reaches an index outside its array, a division by zero or an overflowing
division (the only failure of `AdaptiveAvgPoolKernelSize` is its check). -/
theorem IsSupportedAdaptiveAvgPool2d_agrees (input_size : List Int)
    (hr : 2 ≤ input_size.length) (oh ow : Int) (hoh : oh ≠ 0) (how : ow ≠ 0)
    (hnh : ¬ (input_size.getD (input_size.length - 2) 0 = INT64_MIN ∧ oh = -1))
    (hnw : ¬ (input_size.getD (input_size.length - 1) 0 = INT64_MIN ∧ ow = -1)) :
    (∃ b, IsSupportedAdaptiveAvgPool2d input_size [oh, ow] = .ok b) ∧
    (IsSupportedAdaptiveAvgPool2d input_size [oh, ow] = .ok true ↔
      spatialDimsDivisible input_size [oh, ow]) ∧
    (spatialDimsDivisible input_size [oh, ow] ↔
      ∃ k, AdaptiveAvgPoolKernelSize input_size [oh, ow] = .ok k) ∧
    (∀ e, AdaptiveAvgPoolKernelSize input_size [oh, ow] = .error e → e = .check_failed) := by
  have hs := IsSupportedAdaptiveAvgPool2d_eval input_size hr oh ow hoh how hnh hnw
  have hk := AdaptiveAvgPoolKernelSize_eval input_size hr oh ow hoh how hnh hnw
  have hd : spatialDimsDivisible input_size [oh, ow] ↔
      ((input_size.getD (input_size.length - 2) 0).tmod oh = 0 ∧
        (input_size.getD (input_size.length - 1) 0).tmod ow = 0) := by
    simp [spatialDimsDivisible, tmod_eq_zero_iff_dvd]
  refine ⟨⟨_, hs⟩, ?_, ?_, ?_⟩
  · rw [hs, hd]
    simp
  · rw [hd, hk]
    by_cases m1 : (input_size.getD (input_size.length - 2) 0).tmod oh = 0
    · by_cases m2 : (input_size.getD (input_size.length - 1) 0).tmod ow = 0
      · rw [if_pos m1, if_pos m2]
        exact ⟨fun _ => ⟨_, rfl⟩, fun _ => ⟨m1, m2⟩⟩
      · rw [if_pos m1, if_neg m2]
        exact ⟨fun h => absurd h.2 m2, fun ⟨_, h⟩ => by cases h⟩
    · rw [if_neg m1]
      exact ⟨fun h => absurd h.1 m1, fun ⟨_, h⟩ => by cases h⟩
  · intro e he
    rw [hk] at he
    split_ifs at he <;> cases he <;> rfl

/-- An 8x6 input with the output sizes 4x2 (supported), 3x2 (not supported) and -4x2
(supported, with a negative kernel entry) at which `IsSupportedAdaptiveAvgPool2d_agrees`
is evaluated. -/
theorem IsSupportedAdaptiveAvgPool2d_agrees_witness :
    2 ≤ ([1, 3, 8, 6] : List Int).length ∧ (4 : Int) ≠ 0 ∧ (2 : Int) ≠ 0 ∧
    ¬ (([1, 3, 8, 6] : List Int).getD (([1, 3, 8, 6] : List Int).length - 2) 0 = INT64_MIN ∧
      (4 : Int) = -1) ∧
    ¬ (([1, 3, 8, 6] : List Int).getD (([1, 3, 8, 6] : List Int).length - 1) 0 = INT64_MIN ∧
      (2 : Int) = -1) ∧
    IsSupportedAdaptiveAvgPool2d [1, 3, 8, 6] [4, 2] = .ok true ∧
    IsSupportedAdaptiveAvgPool2d [1, 3, 8, 6] [3, 2] = .ok false ∧
    IsSupportedAdaptiveAvgPool2d [1, 3, 8, 6] [-4, 2] = .ok true ∧
    AdaptiveAvgPoolKernelSize [1, 3, 8, 6] [-4, 2] = .ok [1, 1, -2, 3] ∧
    spatialDimsDivisible [1, 3, 8, 6] [4, 2] ∧
    (∃ k, AdaptiveAvgPoolKernelSize [1, 3, 8, 6] [4, 2] = .ok k) :=
  ⟨by decide, by decide, by decide, by decide, by decide, rfl, rfl, rfl, rfl, by decide,
    (IsSupportedAdaptiveAvgPool2d_agrees [1, 3, 8, 6] (by decide) 4 2 (by decide)
      (by decide) (by decide) (by decide)).2.2.1.mp (by decide)⟩

/-- C16 (as stated) fails: the input `[1, 3, INT64_MIN, 6]` has rank 4, the output size
`[-1, 2]` has two non-zero entries and both of the last two input dimensions are
divisible by their output dimensions, but `IsSupportedAdaptiveAvgPool2d` does not return
`true` and `AdaptiveAvgPoolKernelSize` does not return: both evaluate `INT64_MIN % -1`,
which is undefined. -/
theorem IsSupportedAdaptiveAvgPool2d_overflow :
    2 ≤ ([1, 3, INT64_MIN, 6] : List Int).length ∧ (-1 : Int) ≠ 0 ∧ (2 : Int) ≠ 0 ∧
    spatialDimsDivisible [1, 3, INT64_MIN, 6] [-1, 2] ∧
    IsSupportedAdaptiveAvgPool2d [1, 3, INT64_MIN, 6] [-1, 2] =
      .error .arithmetic_overflow ∧
    IsSupportedAdaptiveAvgPool2d [1, 3, INT64_MIN, 6] [-1, 2] ≠ .ok true ∧
    AdaptiveAvgPoolKernelSize [1, 3, INT64_MIN, 6] [-1, 2] = .error .arithmetic_overflow := by
  have h : IsSupportedAdaptiveAvgPool2d [1, 3, INT64_MIN, 6] [-1, 2] =
      .error .arithmetic_overflow := rfl
  refine ⟨by decide, by decide, by decide, by decide, h, ?_, rfl⟩
  rw [h]
  intro he
  cases he

/-! ### The batch dimension -/

theorem CreateBatchInput_of_rank {X : Type} (ops : XlaOps X) (input : X)
    (spatial_dim_count : Int)
    (h : ops.rank input = spatial_dim_count + 1 ∨ ops.rank input = spatial_dim_count + 2) :
    CreateBatchInput ops input spatial_dim_count =
      .ok { batch_input := if ops.rank input = spatial_dim_count + 1
                           then ops.BuildUnsqueeze input 0 else input,
            original_rank := ops.rank input } := by
  unfold CreateBatchInput
  simp only [h, if_true]
  split_ifs <;> rfl

theorem CreateBatchInput_of_not_rank {X : Type} (ops : XlaOps X) (input : X)
    (spatial_dim_count : Int)
    (h : ¬ (ops.rank input = spatial_dim_count + 1 ∨ ops.rank input = spatial_dim_count + 2)) :
    CreateBatchInput ops input spatial_dim_count = .error .check_failed := by
  unfold CreateBatchInput
  simp only [h, if_false]

/-- C17: `CreateBatchInput` fails exactly when the rank of the input is neither
`spatial_dim_count + 1` nor `spatial_dim_count + 2`.  When it returns, `original_rank`
is the rank of the input, the batch input is `BuildUnsqueeze(input, 0)` when the rank is
`spatial_dim_count + 1` and the input itself otherwise, so (for a `BuildUnsqueeze` that
raises the rank by one) the batch input has rank `spatial_dim_count + 2`; and
`RemoveTrivialBatch` with that `original_rank` is `SqueezeTrivialDimension(batch, 0)`
when the dimension was added and returns its argument otherwise. -/
theorem CreateBatchInput_round_trip {X : Type} (ops : XlaOps X) (input : X)
    (spatial_dim_count : Int) :
    ((∃ e, CreateBatchInput ops input spatial_dim_count = .error e) ↔
      ¬ (ops.rank input = spatial_dim_count + 1 ∨ ops.rank input = spatial_dim_count + 2)) ∧
    (∀ b, CreateBatchInput ops input spatial_dim_count = .ok b →
      b.original_rank = ops.rank input ∧
      (ops.rank input = spatial_dim_count + 1 →
        b.batch_input = ops.BuildUnsqueeze input 0) ∧
      (ops.rank input ≠ spatial_dim_count + 1 → b.batch_input = input) ∧
      ((∀ x, ops.rank (ops.BuildUnsqueeze x 0) = ops.rank x + 1) →
        ops.rank b.batch_input = spatial_dim_count + 2) ∧
      (∀ batch : X,
        (ops.rank input = spatial_dim_count + 1 →
          RemoveTrivialBatch ops batch b.original_rank spatial_dim_count =
            ops.SqueezeTrivialDimension batch 0) ∧
        (ops.rank input ≠ spatial_dim_count + 1 →
          RemoveTrivialBatch ops batch b.original_rank spatial_dim_count = batch))) := by
  by_cases h : ops.rank input = spatial_dim_count + 1 ∨ ops.rank input = spatial_dim_count + 2
  · have hok := CreateBatchInput_of_rank ops input spatial_dim_count h
    refine ⟨?_, ?_⟩
    · simp [hok, h]
    · intro b hb
      rw [hok] at hb
      simp only [Except.ok.injEq] at hb
      subst hb
      refine ⟨rfl, ?_, ?_, ?_, ?_⟩
      · intro h1; simp [h1]
      · intro h1; simp [h1]
      · intro hU
        by_cases h1 : ops.rank input = spatial_dim_count + 1
        · simp only [h1, if_true]
          rw [hU, h1]
          ring
        · simp only [h1, if_false]
          exact h.resolve_left h1
      · intro batch
        refine ⟨?_, ?_⟩
        · intro h1; simp [RemoveTrivialBatch, h1]
        · intro h1; simp [RemoveTrivialBatch, h1]
  · have herr := CreateBatchInput_of_not_rank ops input spatial_dim_count h
    refine ⟨?_, ?_⟩
    · simp [herr, h]
    · intro b hb
      rw [herr] at hb
      cases hb

/-- A 3-d input of a 2-d pooling (no batch dimension) on the shape interpretation, at
which `CreateBatchInput_round_trip` is evaluated; a 5-d input is rejected. -/
theorem CreateBatchInput_round_trip_witness :
    shapeOps.rank [3, 8, 6] = 2 + 1 ∧
    (∀ x, shapeOps.rank (shapeOps.BuildUnsqueeze x 0) = shapeOps.rank x + 1) ∧
    CreateBatchInput shapeOps [3, 8, 6] 2 =
      .ok { batch_input := [1, 3, 8, 6], original_rank := 3 } ∧
    CreateBatchInput shapeOps [2, 2, 3, 8, 6] 2 = .error .check_failed ∧
    shapeOps.rank [1, 3, 8, 6] = 2 + 2 ∧
    RemoveTrivialBatch shapeOps [1, 3, 4, 3] 3 2 = [3, 4, 3] ∧
    (∀ batch : List Int, RemoveTrivialBatch shapeOps batch 3 2 =
      shapeOps.SqueezeTrivialDimension batch 0) :=
  have hr : shapeOps.rank [3, 8, 6] = 2 + 1 := by decide
  have hU : ∀ x, shapeOps.rank (shapeOps.BuildUnsqueeze x 0) = shapeOps.rank x + 1 := by
    intro x
    simp [shapeOps]
  have hc : CreateBatchInput shapeOps [3, 8, 6] 2 =
      .ok { batch_input := [1, 3, 8, 6], original_rank := 3 } := rfl
  ⟨hr, hU, hc, rfl,
    ((CreateBatchInput_round_trip shapeOps [3, 8, 6] 2).2 _ hc).2.2.2.1 hU,
    rfl,
    fun batch =>
      (((CreateBatchInput_round_trip shapeOps [3, 8, 6] 2).2 _ hc).2.2.2.2 batch).1 hr⟩

/-! ### The window of the max-pool gradient -/

/-- C18: when `kernel_size` has `spatial_dim_count` elements, `stride` is empty or has
`spatial_dim_count` elements and `padding` has `spatial_dim_count` elements, the
`window_dimensions`, `window_strides` and `padding` that `BuildMaxPoolNdBackward` passes
to `SelectAndScatterWithGeneralPadding` have `spatial_dim_count + 2` elements each, and
the padding is two pairs `(0, 0)` followed by the pairs `(padding[i], padding[i])`; the
call is reached whenever both ops have an accepted rank, and the function returns the
result of that call after `RemoveTrivialBatch`. -/
theorem BuildMaxPoolNdBackward_window {X : Type} (ops : XlaOps X) (out_backprop input : X)
    (spatial_dim_count : Int) (kernel_size stride padding : List Int)
    (hk : (kernel_size.length : Int) = spatial_dim_count)
    (hs : stride = [] ∨ (stride.length : Int) = spatial_dim_count)
    (hp : (padding.length : Int) = spatial_dim_count) :
    (∀ args original_rank,
      BuildMaxPoolNdBackward_args ops out_backprop input spatial_dim_count
        kernel_size stride padding = .ok (args, original_rank) →
      (args.window_dimensions.length : Int) = spatial_dim_count + 2 ∧
      (args.window_strides.length : Int) = spatial_dim_count + 2 ∧
      (args.padding.length : Int) = spatial_dim_count + 2 ∧
      args.padding = (0, 0) :: (0, 0) :: padding.map (fun dim_pad => (dim_pad, dim_pad)) ∧
      BuildMaxPoolNdBackward ops out_backprop input spatial_dim_count
        kernel_size stride padding =
        .ok (RemoveTrivialBatch ops
          (ops.SelectAndScatterWithGeneralPadding args.operand args.window_dimensions
            args.window_strides args.padding args.source)
          original_rank spatial_dim_count)) ∧
    ((ops.rank input = spatial_dim_count + 1 ∨ ops.rank input = spatial_dim_count + 2) →
      (ops.rank out_backprop = spatial_dim_count + 1 ∨
        ops.rank out_backprop = spatial_dim_count + 2) →
      ∃ args original_rank,
        BuildMaxPoolNdBackward_args ops out_backprop input spatial_dim_count
          kernel_size stride padding = .ok (args, original_rank)) := by
  have hattr := MakePoolingOpAttributes_of_eq kernel_size stride padding spatial_dim_count hp
  refine ⟨?_, ?_⟩
  · intro args original_rank hargs
    have hfun : BuildMaxPoolNdBackward ops out_backprop input spatial_dim_count
        kernel_size stride padding =
        .ok (RemoveTrivialBatch ops
          (ops.SelectAndScatterWithGeneralPadding args.operand args.window_dimensions
            args.window_strides args.padding args.source)
          original_rank spatial_dim_count) := by
      simp only [BuildMaxPoolNdBackward, hargs]
    unfold BuildMaxPoolNdBackward_args at hargs
    rw [hattr] at hargs
    cases h1 : CreateBatchInput ops input spatial_dim_count with
    | error e => rw [h1] at hargs; cases hargs
    | ok b1 =>
      cases h2 : CreateBatchInput ops out_backprop spatial_dim_count with
      | error e => rw [h1, h2] at hargs; cases hargs
      | ok b2 =>
        rw [h1, h2] at hargs
        simp only [Except.ok.injEq, Prod.mk.injEq] at hargs
        obtain ⟨ha, _⟩ := hargs
        subst ha
        refine ⟨?_, ?_, ?_, ?_, hfun⟩
        · simp only [List.length_cons]
          push_cast
          omega
        · rcases hs with hs | hs
          · subst hs
            simp only [if_true, List.length_cons]
            push_cast
            omega
          · by_cases he : stride = []
            · subst he
              simp only [if_true, List.length_cons]
              push_cast
              omega
            · simp only [he, if_false, List.length_cons]
              push_cast
              omega
        · simp only [List.replicate, List.cons_append, List.nil_append, List.length_cons,
            List.length_map]
          push_cast
          omega
        · simp [List.replicate]
  · intro hi ho
    unfold BuildMaxPoolNdBackward_args
    rw [hattr, CreateBatchInput_of_rank ops input spatial_dim_count hi,
      CreateBatchInput_of_rank ops out_backprop spatial_dim_count ho]
    exact ⟨_, _, rfl⟩

/-- A 2-d max-pool gradient with kernel 3x2, no stride attribute and padding 1, 0 on a
batched 4-d input, at which `BuildMaxPoolNdBackward_window` is evaluated. -/
theorem BuildMaxPoolNdBackward_window_witness :
    (([3, 2] : List Int).length : Int) = 2 ∧
    (([] : List Int) = [] ∨ (([] : List Int).length : Int) = 2) ∧
    (([1, 0] : List Int).length : Int) = 2 ∧
    (shapeOps.rank [1, 3, 8, 6] = 2 + 1 ∨ shapeOps.rank [1, 3, 8, 6] = 2 + 2) ∧
    (shapeOps.rank [1, 3, 4, 3] = 2 + 1 ∨ shapeOps.rank [1, 3, 4, 3] = 2 + 2) ∧
    BuildMaxPoolNdBackward_args shapeOps [1, 3, 4, 3] [1, 3, 8, 6] 2 [3, 2] [] [1, 0] =
      .ok ({ operand := [1, 3, 8, 6], window_dimensions := [1, 1, 3, 2],
             window_strides := [1, 1, 3, 2],
             padding := [(0, 0), (0, 0), (1, 1), (0, 0)],
             source := [1, 3, 4, 3] }, 4) ∧
    ((([1, 1, 3, 2] : List Int).length : Int) = 2 + 2 ∧
      (([1, 1, 3, 2] : List Int).length : Int) = 2 + 2 ∧
      (([(0, 0), (0, 0), (1, 1), (0, 0)] : List (Int × Int)).length : Int) = 2 + 2) ∧
    (∃ args original_rank,
      BuildMaxPoolNdBackward_args shapeOps [1, 3, 4, 3] [1, 3, 8, 6] 2 [3, 2] [] [1, 0] =
        .ok (args, original_rank)) :=
  have hk : (([3, 2] : List Int).length : Int) = 2 := by decide
  have hs : ([] : List Int) = [] ∨ (([] : List Int).length : Int) = 2 := Or.inl rfl
  have hp : (([1, 0] : List Int).length : Int) = 2 := by decide
  have hi : shapeOps.rank [1, 3, 8, 6] = 2 + 1 ∨ shapeOps.rank [1, 3, 8, 6] = 2 + 2 :=
    Or.inr (by decide)
  have ho : shapeOps.rank [1, 3, 4, 3] = 2 + 1 ∨ shapeOps.rank [1, 3, 4, 3] = 2 + 2 :=
    Or.inr (by decide)
  ⟨hk, hs, hp, hi, ho, rfl, ⟨by decide, by decide, by decide⟩,
    (BuildMaxPoolNdBackward_window shapeOps [1, 3, 4, 3] [1, 3, 8, 6] 2 [3, 2] [] [1, 0]
      hk hs hp).2 hi ho⟩

end torch_xla
